import Mathlib

/-!
A shallow embedding of the red-black tree and reference-counted memory
components of the data-structures repository (src/source/rbt/rbt.c and
src/source/mem/mem.c).  Pointers are modeled as natural-number addresses,
the C heap as a function from addresses to optional objects (a freed or
never-allocated address maps to none), and every pointer dereference is a
fallible read in the Option monad, so a NULL or use-after-free dereference
makes the modeled operation return none.  Node contents (a void pointer in
the C source) are modeled as integer key values and the tree comparator as
an explicit function argument, mirroring tree->comp.  Recursive C functions
take an explicit fuel argument; with enough fuel the model computes exactly
what the C code computes, statement by statement and in the same order.
-/

namespace RBT

/-- Node colors, mirroring rbt_color_t (RED = 0, BLACK). -/
inductive Color where
  | red
  | black
deriving DecidableEq, Repr

/-- Rotation directions, mirroring direction_t (LEFT = 0, RIGHT). -/
inductive Dir where
  | left
  | right
deriving DecidableEq, Repr

/-- The payload of an rbt_node_t: child and parent pointers, color and
contents.  The contents void pointer is modeled as the integer key that the
comparator inspects. -/
structure Node where
  left : Option Nat
  right : Option Nat
  parent : Option Nat
  color : Color
  contents : Int
deriving DecidableEq, Repr

/-- A heap object: the node payload plus the reference count kept by mem.c
in the hidden header before the payload. -/
structure Obj where
  node : Node
  refcount : Int
deriving DecidableEq, Repr

/-- The mutable program state: the heap of allocated node objects, the
tree's root pointer (the rbt_t structure), and the next fresh address that
malloc will hand out.  The comparator stored in rbt_t is passed to the
operations as an explicit argument instead. -/
structure St where
  heap : Nat → Option Obj
  root : Option Nat
  nextAddr : Nat

/-- Dereference a node pointer: fails (returns none) on a freed or
never-allocated address, like a bad dereference in C. -/
def readNode (s : St) (a : Nat) : Option Node :=
  (s.heap a).map Obj.node

/-- Write one field of a live node in place; fails if the address is dead. -/
def modifyNode (s : St) (a : Nat) (f : Node → Node) : Option St :=
  match s.heap a with
  | none => none
  | some o =>
      some { s with heap := Function.update s.heap a (some { o with node := f o.node }) }

/-- Assign tree->root. -/
def setRoot (s : St) (r : Option Nat) : St :=
  { s with root := r }

/-- node_color from rbt.c: leaves are NULL and black implicitly; reading the
color of a live node dereferences it. -/
def node_color (s : St) (aO : Option Nat) : Option Color :=
  match aO with
  | none => some Color.black
  | some a => (readNode s a).map Node.color

/-- mem_retain from mem.c, applied to a tree node: increment the reference
count and return (the state; the C function returns the same handle). -/
def mem_retain (s : St) (a : Nat) : Option St :=
  match s.heap a with
  | none => none
  | some o =>
      some { s with heap := Function.update s.heap a (some { o with refcount := o.refcount + 1 }) }

/-- Remove an object from the heap, modeling free() of header and payload. -/
def freeObj (s : St) (a : Nat) : St :=
  { s with heap := Function.update s.heap a none }

/-- mem_release from mem.c applied to a tree node: decrement the count and,
when the result drops below 1, run the node finalizer rbt_node_free (which
releases the left and right children; the contents release has no observable
effect here because contents are modeled as plain values) and free the
storage.  Fuel bounds the finalizer recursion. -/
def mem_release (fuel : Nat) (s : St) (a : Nat) : Option St :=
  match fuel with
  | 0 => none
  | fuel+1 =>
    match s.heap a with
    | none => none
    | some o =>
        let rc := o.refcount - 1
        let s1 : St := { s with heap := Function.update s.heap a (some { o with refcount := rc }) }
        if rc < 1 then do
          let n ← readNode s1 a
          let s2 ← match n.left with
            | none => some s1
            | some l => mem_release fuel s1 l
          let n2 ← readNode s2 a
          let s3 ← match n2.right with
            | none => some s2
            | some r => mem_release fuel s2 r
          some (freeObj s3 a)
        else
          some s1

/-- rbt_node_new: allocate a fresh RED node with no relatives holding the
given contents, reference count 1. -/
def rbt_node_new (s : St) (v : Int) : St × Nat :=
  let a := s.nextAddr
  ({ heap := Function.update s.heap a
        (some { node := { left := none, right := none, parent := none
                        , color := Color.red, contents := v }
              , refcount := 1 })
   , root := s.root
   , nextAddr := a + 1 }, a)

/-- rbt_new: an empty tree.  The comparator slot of rbt_t is modeled by
passing the comparator to every operation. -/
def rbt_new : St :=
  { heap := fun _ => none, root := none, nextAddr := 0 }

/-- rbt_default_comparator from rbt.c, transcribed on the modeled key
values: 0 on equality, else -1 or 1 by order.  Used as the concrete
comparator in concrete runs. -/
def icmp (a b : Int) : Int :=
  if a = b then 0 else if a < b then -1 else 1

/-- rotate from rbt.c, literally: edon is the pivot's child opposite the
direction; if it is absent the rotation is not allowed and nothing happens.
Every C statement is mirrored in order, with each pointer dereference a
fresh fallible read. -/
def rotate (s : St) (aO : Option Nat) (d : Dir) : Option St := do
  let a ← aO
  let n ← readNode s a
  match (match d with | Dir.left => n.right | Dir.right => n.left) with
  | none => some s
  | some e => do
      let s ← (do
        let n1 ← readNode s a
        match n1.parent with
        | none => some (setRoot s (some e))
        | some q => do
            let qn ← readNode s q
            if qn.left = some a then
              modifyNode s q fun m => { m with left := some e }
            else
              modifyNode s q fun m => { m with right := some e })
      let n2 ← readNode s a
      let s ← modifyNode s e fun m => { m with parent := n2.parent }
      match d with
      | Dir.left => do
          let en ← readNode s e
          let s ← modifyNode s a fun m => { m with right := en.left }
          let s ← match en.left with
            | none => some s
            | some t => modifyNode s t fun m => { m with parent := some a }
          let s ← modifyNode s e fun m => { m with left := some a }
          modifyNode s a fun m => { m with parent := some e }
      | Dir.right => do
          let en ← readNode s e
          let s ← modifyNode s a fun m => { m with left := en.right }
          let s ← match en.right with
            | none => some s
            | some t => modifyNode s t fun m => { m with parent := some a }
          let s ← modifyNode s e fun m => { m with right := some a }
          modifyNode s a fun m => { m with parent := some e }

/-- rbt_ins_rebalance from rbt.c: rotate at the grandparent away from the
heavy side, then recolor parent black and grandparent red.  A NULL
grandparent makes rotate dereference NULL, exactly as in C. -/
def rbt_ins_rebalance (s : St) (a : Nat) (heavy : Dir) : Option St := do
  let n ← readNode s a
  let pO := n.parent
  let gpO ← match pO with
    | none => some (none : Option Nat)
    | some p => (readNode s p).map Node.parent
  let s ← rotate s gpO (match heavy with | Dir.left => Dir.right | Dir.right => Dir.left)
  let p ← pO
  let s ← modifyNode s p fun m => { m with color := Color.black }
  let gp ← gpO
  modifyNode s gp fun m => { m with color := Color.red }

/-- rbt_ins_recolor from rbt.c: bottom-up insertion fix-up. -/
def rbt_ins_recolor (fuel : Nat) (s : St) (a : Nat) : Option St :=
  match fuel with
  | 0 => none
  | fuel+1 => do
    let n ← readNode s a
    let pO := n.parent
    let gpO ← match pO with
      | none => some (none : Option Nat)
      | some p => (readNode s p).map Node.parent
    let uncleO ← match gpO with
      | none => some (none : Option Nat)
      | some gp => do
          let gpn ← readNode s gp
          some (if gpn.left = pO then gpn.right else gpn.left)
    match pO with
    | none => modifyNode s a fun m => { m with color := Color.black }
    | some p => do
        let pc ← node_color s pO
        if pc = Color.black then
          some s
        else do
          let uc ← node_color s uncleO
          if uc = Color.red then do
            let gp ← gpO
            let s ← modifyNode s gp fun m => { m with color := Color.red }
            let s ← modifyNode s p fun m => { m with color := Color.black }
            let u ← uncleO
            let s ← modifyNode s u fun m => { m with color := Color.black }
            rbt_ins_recolor fuel s gp
          else do
            let pn ← readNode s p
            let node_side := if pn.left = some a then Dir.left else Dir.right
            let gp ← gpO
            let gpn ← readNode s gp
            let parent_side := if gpn.left = some p then Dir.left else Dir.right
            if node_side ≠ parent_side then do
              let s ← rotate s (some p) parent_side
              rbt_ins_rebalance s p parent_side
            else
              rbt_ins_rebalance s a parent_side

/-- rbt_insert_node from rbt.c: recursive binary-search-tree descent;
attach the new RED node at the found leaf position (or as root) and run the
fix-up. -/
def rbt_insert_node (comp : Int → Int → Int) (fuel : Nat) (s : St) (a : Nat)
    (pO : Option Nat) : Option St :=
  match fuel with
  | 0 => none
  | fuel+1 =>
    match pO with
    | none => rbt_ins_recolor fuel (setRoot s (some a)) a
    | some p => do
        let an ← readNode s a
        let pn ← readNode s p
        if comp an.contents pn.contents < 0 then
          match pn.left with
          | some l => rbt_insert_node comp fuel s a (some l)
          | none => do
              let s ← modifyNode s a fun m => { m with parent := some p }
              let s ← modifyNode s p fun m => { m with left := some a }
              rbt_ins_recolor fuel s a
        else
          match pn.right with
          | some r => rbt_insert_node comp fuel s a (some r)
          | none => do
              let s ← modifyNode s a fun m => { m with parent := some p }
              let s ← modifyNode s p fun m => { m with right := some a }
              rbt_ins_recolor fuel s a

/-- rbt_insert from rbt.c: allocate the node, insert starting from the
current root, and return the new node's address. -/
def rbt_insert (comp : Int → Int → Int) (fuel : Nat) (s : St) (v : Int) :
    Option (St × Nat) :=
  let (s1, a) := rbt_node_new s v
  (rbt_insert_node comp fuel s1 a s1.root).map (fun s2 => (s2, a))

/-- rbt_lookup_node from rbt.c: recursive binary search guided by the
comparator; the outer Option is a crash (or out of fuel), the inner Option
is the found-or-NULL result. -/
def rbt_lookup_node (comp : Int → Int → Int) (fuel : Nat) (s : St)
    (aO : Option Nat) (v : Int) : Option (Option Nat) :=
  match fuel with
  | 0 => none
  | fuel+1 =>
    match aO with
    | none => some none
    | some a => do
        let n ← readNode s a
        let c := comp v n.contents
        if c = 0 then some (some a)
        else if c > 0 then rbt_lookup_node comp fuel s n.right v
        else rbt_lookup_node comp fuel s n.left v

/-- rbt_lookup from rbt.c. -/
def rbt_lookup (comp : Int → Int → Int) (fuel : Nat) (s : St) (v : Int) :
    Option (Option Nat) :=
  rbt_lookup_node comp fuel s s.root v

/-- rbt_del_rebalance from rbt.c: bottom-up deletion rebalance of a node
whose subtree is one black node short. -/
def rbt_del_rebalance (fuel : Nat) (s : St) (a : Nat) : Option St :=
  match fuel with
  | 0 => none
  | fuel+1 => do
    let n ← readNode s a
    match n.parent with
    | none => modifyNode s a fun m => { m with color := Color.black }
    | some p => do
        let pn ← readNode s p
        let node_side := if pn.left = some a then Dir.left else Dir.right
        let sibO := match node_side with | Dir.left => pn.right | Dir.right => pn.left
        let insO ← match sibO with
          | none => some (none : Option Nat)
          | some sb => do
              let sn ← readNode s sb
              some (match node_side with | Dir.left => sn.left | Dir.right => sn.right)
        let outO ← match sibO with
          | none => some (none : Option Nat)
          | some sb => do
              let sn ← readNode s sb
              some (match node_side with | Dir.left => sn.right | Dir.right => sn.left)
        let sc ← node_color s sibO
        if sc = Color.red then do
          let s ← rotate s (some p) node_side
          let s ← modifyNode s p fun m => { m with color := Color.red }
          let sb ← sibO
          let s ← modifyNode s sb fun m => { m with color := Color.black }
          rbt_del_rebalance fuel s a
        else do
          let ic ← node_color s insO
          let oc ← node_color s outO
          if ic = Color.black ∧ oc = Color.black then do
            let sb ← sibO
            let s ← modifyNode s sb fun m => { m with color := Color.red }
            let pc ← node_color s (some p)
            if pc = Color.red then
              modifyNode s p fun m => { m with color := Color.black }
            else
              rbt_del_rebalance fuel s p
          else if oc = Color.black then do
            let s ← rotate s sibO (match node_side with | Dir.left => Dir.right | Dir.right => Dir.left)
            let sb ← sibO
            let s ← modifyNode s sb fun m => { m with color := Color.red }
            let ins ← insO
            let s ← modifyNode s ins fun m => { m with color := Color.black }
            rbt_del_rebalance fuel s a
          else do
            let s ← rotate s (some p) node_side
            let pc ← node_color s (some p)
            let sb ← sibO
            let s ← modifyNode s sb fun m => { m with color := pc }
            let s ← modifyNode s p fun m => { m with color := Color.black }
            let outN ← outO
            modifyNode s outN fun m => { m with color := Color.black }

/-- rightmost_descendent from rbt.c. -/
def rightmost_descendent (fuel : Nat) (s : St) (a : Nat) : Option Nat :=
  match fuel with
  | 0 => none
  | fuel+1 => do
    let n ← readNode s a
    match n.right with
    | some r => rightmost_descendent fuel s r
    | none => some a

/-- The common tail of rbt_delete_node (rbt.c lines 226-229): clear the
doomed node's pointers and release it. -/
def detach_and_release (fuel : Nat) (s : St) (a : Nat) : Option St := do
  let s ← modifyNode s a fun m => { m with left := none }
  let s ← modifyNode s a fun m => { m with right := none }
  let s ← modifyNode s a fun m => { m with parent := none }
  mem_release fuel s a

/-- Lines 196-204 of rbt_delete_node in rbt.c: after the in-order
predecessor rep has been recursively deleted, splice it into the doomed
node's place.  The parent argument is the stale value captured at line 191,
before the recursive deletion; all other reads are fresh, as in the
source. -/
def rbt_splice (fuel : Nat) (s : St) (a rep : Nat) (parent : Option Nat) :
    Option St := do
  let n1 ← readNode s a
  let s ← match n1.left with
    | none => some s
    | some l => modifyNode s l fun m => { m with parent := some rep }
  let n2 ← readNode s a
  let s ← match n2.right with
    | none => some s
    | some r => modifyNode s r fun m => { m with parent := some rep }
  let n3 ← readNode s a
  let s ← modifyNode s rep fun m => { m with left := n3.left }
  let n4 ← readNode s a
  let s ← modifyNode s rep fun m => { m with right := n4.right }
  let n5 ← readNode s a
  let s ← modifyNode s rep fun m => { m with parent := n5.parent }
  let n6 ← readNode s a
  let s ← modifyNode s rep fun m => { m with color := n6.color }
  let s ← match parent with
    | none => some (setRoot s (some rep))
    | some p => do
        let pn ← readNode s p
        if pn.left = some a then
          modifyNode s p fun m => { m with left := some rep }
        else
          modifyNode s p fun m => { m with right := some rep }
  detach_and_release fuel s a

/-- Lines 221-224 of rbt_delete_node in rbt.c: promote child into the
doomed node's slot of parent (or the root) and detach. -/
def rbt_unlink (fuel : Nat) (s : St) (a : Nat) (child parent : Option Nat) :
    Option St := do
  let s ← match child with
    | none => some s
    | some c => modifyNode s c fun m => { m with parent := parent }
  let s ← match parent with
    | none => some (setRoot s child)
    | some p => do
        let pn ← readNode s p
        if pn.right = some a then
          modifyNode s p fun m => { m with right := child }
        else
          modifyNode s p fun m => { m with left := child }
  detach_and_release fuel s a

/-- Lines 205-229 of rbt_delete_node in rbt.c: the at-most-one-child cases.
The parent argument is the value captured at line 191; it is re-read after
a rebalance (line 218), as in the source. -/
def rbt_delete_node_simple (fuel : Nat) (s : St) (a : Nat)
    (parent : Option Nat) : Option St := do
  let nc ← node_color s (some a)
  if nc = Color.red then do
    let p ← parent
    let pn ← readNode s p
    let s ← (if pn.left = some a then
        modifyNode s p fun m => { m with left := none }
      else
        modifyNode s p fun m => { m with right := none })
    rbt_unlink fuel s a none parent
  else do
    let n1 ← readNode s a
    let cl ← node_color s n1.left
    let promote ← (if cl = Color.red then some true else do
      let cr ← node_color s n1.right
      some (cr = Color.red))
    if promote then do
      let child := match n1.left with | some l => some l | none => n1.right
      let c ← child
      let s ← modifyNode s c fun m => { m with color := Color.black }
      rbt_unlink fuel s a child parent
    else do
      let s ← rbt_del_rebalance fuel s a
      let n2 ← readNode s a
      let child := match n2.left with | some l => some l | none => n2.right
      rbt_unlink fuel s a child n2.parent

/-- rbt_delete_node from rbt.c.  Note that the local variable parent is
captured before the recursive deletion of the in-order predecessor, exactly
as in the source (line 191). -/
def rbt_delete_node (fuel : Nat) (s : St) (a : Nat) : Option St :=
  match fuel with
  | 0 => none
  | fuel+1 => do
    let n ← readNode s a
    let parent := n.parent
    match n.left, n.right with
    | some l0, some _ => do
        let rep ← rightmost_descendent fuel s l0
        let s ← mem_retain s rep
        let s ← rbt_delete_node fuel s rep
        rbt_splice fuel s a rep parent
    | _, _ => rbt_delete_node_simple fuel s a parent

/-- rbt_delete from rbt.c: look the value up and delete the node if found;
deleting an absent value is a no-op. -/
def rbt_delete (comp : Int → Int → Int) (fuel : Nat) (s : St) (v : Int) :
    Option St := do
  let doomed ← rbt_lookup comp fuel s v
  match doomed with
  | none => some s
  | some a => rbt_delete_node fuel s a

/-- The validation statuses of rbt.h. -/
inductive Status where
  | OK
  | UNKNOWN_COLOR
  | RED_WITH_RED_CHILD
  | OUT_OF_ORDER
  | SELF_REFERENCE
  | BAD_PARENT_POINTER
  | BAD_ROOT_COLOR
  | BLACK_NODES_UNBALANCED
deriving DecidableEq, Repr

/-- count_black_nodes_to_leaf from rbt.c: -1 when the black counts of the
two child subtrees differ. -/
def count_black_nodes_to_leaf (fuel : Nat) (s : St) (aO : Option Nat) :
    Option Int :=
  match fuel with
  | 0 => none
  | fuel+1 =>
    match aO with
    | none => some 0
    | some a => do
        let n ← readNode s a
        let leftcount ← count_black_nodes_to_leaf fuel s n.left
        let rightcount ← count_black_nodes_to_leaf fuel s n.right
        if leftcount ≠ rightcount then some (-1)
        else if n.color = Color.black then some (leftcount + 1)
        else some leftcount

/-- rbt_check_node from rbt.c.  The mem_box(-1) sentinel is modeled by the
key value -1 itself; the C code's short-circuit evaluation order of the
dereferencing conditions is preserved. -/
def rbt_check_node (comp : Int → Int → Int) (fuel : Nat) (s : St)
    (aO : Option Nat) (minV maxV : Int) : Option Status :=
  match fuel with
  | 0 => none
  | fuel+1 =>
    match aO with
    | none => some Status.OK
    | some a => do
        let n ← readNode s a
        let ret ← (do
          if n.color ≠ Color.red ∧ n.color ≠ Color.black then
            some Status.UNKNOWN_COLOR
          else do
            let redred ← (if n.color = Color.red then do
                let cl ← node_color s n.left
                if cl ≠ Color.black then do
                  let cr ← node_color s n.right
                  some (decide (cr ≠ Color.black))
                else some false
              else some false)
            if redred then some Status.RED_WITH_RED_CHILD
            else if comp minV (-1) > 0 ∧ comp n.contents minV < 0 then
              some Status.OUT_OF_ORDER
            else if comp maxV (-1) > 0 ∧ comp n.contents maxV > 0 then
              some Status.OUT_OF_ORDER
            else if n.left = some a ∨ n.right = some a then
              some Status.SELF_REFERENCE
            else do
              let badl ← match n.left with
                | none => some false
                | some l => do
                    let ln ← readNode s l
                    some (decide (ln.parent ≠ some a))
              if badl then some Status.BAD_PARENT_POINTER
              else do
                let badr ← match n.right with
                  | none => some false
                  | some rr => do
                      let rn ← readNode s rr
                      some (decide (rn.parent ≠ some a))
                if badr then some Status.BAD_PARENT_POINTER
                else some Status.OK)
        let ret ← (if ret = Status.OK then
            rbt_check_node comp fuel s n.left minV n.contents
          else some ret)
        if ret = Status.OK then
          rbt_check_node comp fuel s n.right n.contents maxV
        else some ret

/-- rbt_check_status from rbt.c: walk the tree, then check the root's
parent pointer, the root color, and the black-height balance. -/
def rbt_check_status (comp : Int → Int → Int) (fuel : Nat) (s : St) :
    Option Status := do
  let ret ← rbt_check_node comp fuel s s.root (-1) (-1)
  let ret ← (if ret = Status.OK then do
      match s.root with
      | none => some ret
      | some r => do
          let rn ← readNode s r
          if rn.parent ≠ none then some Status.BAD_PARENT_POINTER else some ret
    else some ret)
  let ret ← (if ret = Status.OK then do
      let rc ← node_color s s.root
      if rc ≠ Color.black then some Status.BAD_ROOT_COLOR else some ret
    else some ret)
  if ret = Status.OK then do
    let c ← count_black_nodes_to_leaf fuel s s.root
    if c = -1 then some Status.BLACK_NODES_UNBALANCED else some ret
  else some ret

/-- One public tree operation of the external interface. -/
inductive Op where
  | ins (v : Int)
  | del (v : Int)
deriving DecidableEq, Repr

/-- Run one public operation (the inserted node's address is dropped). -/
def runOp (comp : Int → Int → Int) (fuel : Nat) (s : St) : Op → Option St
  | Op.ins v => (rbt_insert comp fuel s v).map Prod.fst
  | Op.del v => rbt_delete comp fuel s v

/-- Run a sequence of public operations from a given state. -/
def runOps (comp : Int → Int → Int) (fuel : Nat) (s : St) : List Op → Option St
  | [] => some s
  | o :: rest => do
      let s ← runOp comp fuel s o
      runOps comp fuel s rest

/-- The two heaps hold exactly the same addresses, and each object keeps its
contents and reference count (link fields and colors may differ).  All the
functions on the insertion path satisfy this relation between their input
and output states: they relink and recolor but never allocate, free, or
touch contents. -/
def SameObjs (s s' : St) : Prop :=
  ∀ a, (s'.heap a).map (fun o => (o.node.contents, o.refcount)) =
       (s.heap a).map (fun o => (o.node.contents, o.refcount))

/-- A hand-built heap used to exercise the validator: a BLACK root (key 3)
whose left child (key 2) is RED and itself has a RED left child (key 1).
All colors are valid, keys are in order, parent references are consistent,
and the black count is uniform, but a RED node has a RED child. -/
def c3heap : Nat → Option Obj := fun a =>
  if a = 0 then
    some { node := { left := some 1, right := none, parent := none
                   , color := Color.black, contents := 3 }, refcount := 1 }
  else if a = 1 then
    some { node := { left := some 2, right := none, parent := some 0
                   , color := Color.red, contents := 2 }, refcount := 1 }
  else if a = 2 then
    some { node := { left := none, right := none, parent := some 1
                   , color := Color.red, contents := 1 }, refcount := 1 }
  else none

/-- The tree state over c3heap. -/
def c3state : St :=
  { heap := c3heap, root := some 0, nextAddr := 3 }

/-- A one-node tree with a BLACK root of key 7, used as a concrete input. -/
def c8state : St :=
  { heap := Function.update (fun _ => none) 0 (some { node := { left := none, right := none, parent := none, color := Color.black, contents := 7 }, refcount := 1 })
  , root := some 0, nextAddr := 1 }

/-!
A pure, algebraic view of the pointer structures: a PTree records the shape
a well-formed heap tree is expected to have, with the address, color and
key of every node.  reprOk checks that a heap lays out exactly that shape
with correct parent back-references.  The pure mirrors (plookup, rot1,
blackCount, noRedRed) restate the corresponding C routines on this view.
-/

/-- A pure binary tree of (address, color, key) triples. -/
inductive PTree where
  | leaf
  | node (l : PTree) (a : Nat) (c : Color) (k : Int) (r : PTree)
deriving DecidableEq, Repr

/-- The address of the root node, none for the empty tree. -/
def PTree.rootA : PTree → Option Nat
  | .leaf => none
  | .node _ a _ _ _ => some a

/-- All addresses, in in-order. -/
def PTree.addrs : PTree → List Nat
  | .leaf => []
  | .node l a _ _ r => l.addrs ++ a :: r.addrs

/-- The in-order traversal as a list of (address, key) pairs. -/
def PTree.inorder : PTree → List (Nat × Int)
  | .leaf => []
  | .node l a _ k r => l.inorder ++ (a, k) :: r.inorder

/-- The in-order key sequence. -/
def PTree.keys (t : PTree) : List Int :=
  t.inorder.map Prod.snd

/-- The subtree rooted at the node with the given address, if any. -/
def PTree.findA : PTree → Nat → Option PTree
  | .leaf, _ => none
  | .node l a c k r, p =>
      if a = p then some (.node l a c k r)
      else (l.findA p).orElse (fun _ => r.findA p)

/-- The subtree rooted at the given address together with the address of
its structural parent (par is the parent of the whole tree). -/
def PTree.findP : PTree → Option Nat → Nat → Option (Option Nat × PTree)
  | .leaf, _, _ => none
  | .node l a c k r, par, p =>
      if a = p then some (par, .node l a c k r)
      else (l.findP (some a) p).orElse (fun _ => r.findP (some a) p)

/-- Replace the subtree rooted at the given address. -/
def PTree.replaceA : PTree → Nat → PTree → PTree
  | .leaf, _, _ => .leaf
  | .node l a c k r, p, t' =>
      if a = p then t'
      else .node (l.replaceA p t') a c k (r.replaceA p t')

/-- The pivot child on the side opposite a rotation direction (the edon of
rotate): the right child for LEFT, the left child for RIGHT. -/
def oppC (d : Dir) : PTree → PTree
  | .leaf => .leaf
  | .node l _ _ _ r => match d with | Dir.left => r | Dir.right => l

/-- A single pure rotation at the root of a subtree, defined exactly when
the child opposite the direction exists; otherwise the tree is returned
unchanged (rotation is not allowed). -/
def rot1 : Dir → PTree → PTree
  | Dir.left, .node l a c k (.node rl e ec ek rr) =>
      .node (.node l a c k rl) e ec ek rr
  | Dir.right, .node (.node ll e ec ek lr) a c k r =>
      .node ll e ec ek (.node lr a c k r)
  | _, t => t

/-- The heap lays out exactly the given pure tree below a parent pointer:
each node is live and its record holds the expected children, parent
back-reference, color and contents. -/
def reprOk (h : Nat → Option Obj) (par : Option Nat) : PTree → Bool
  | .leaf => true
  | .node l a c k r =>
      match h a with
      | none => false
      | some o =>
          decide (o.node = { left := l.rootA, right := r.rootA, parent := par
                           , color := c, contents := k }) &&
          reprOk h (some a) l && reprOk h (some a) r

/-- The tree state is a well-formed layout of the pure tree: the root
pointer agrees, the heap represents the tree with no parent above the
root, and all addresses are distinct. -/
def Wf (s : St) (t : PTree) : Prop :=
  s.root = t.rootA ∧ reprOk s.heap none t = true ∧ t.addrs.Nodup

/-- Pure mirror of rbt_lookup_node on the PTree view: returns the address
of the first node on the comparator-guided path whose key compares equal. -/
def plookup (comp : Int → Int → Int) : PTree → Int → Option Nat
  | .leaf, _ => none
  | .node l a _ k r, v =>
      let c := comp v k
      if c = 0 then some a
      else if c > 0 then plookup comp r v
      else plookup comp l v

/-- Pure mirror of count_black_nodes_to_leaf: -1 signals a black-height
imbalance. -/
def blackCount : PTree → Int
  | .leaf => 0
  | .node l _ c _ r =>
      let lc := blackCount l
      let rc := blackCount r
      if lc ≠ rc then -1
      else if c = Color.black then lc + 1 else lc

/-- The color of a subtree root; absent children are BLACK. -/
def rootColor : PTree → Color
  | .leaf => Color.black
  | .node _ _ c _ _ => c

/-- No RED node has a RED child. -/
def noRedRed : PTree → Bool
  | .leaf => true
  | .node l _ c _ r =>
      (decide (c = Color.red) → (decide (rootColor l = Color.black) && decide (rootColor r = Color.black))) &&
      noRedRed l && noRedRed r


/-- The pure view of c3state: BLACK root (key 3, address 0) with a RED left
child (key 2, address 1) that itself has a RED left child (key 1, address 2). -/
def c3tree : PTree :=
  PTree.node
    (PTree.node (PTree.node PTree.leaf 2 Color.red 1 PTree.leaf) 1 Color.red 2 PTree.leaf)
    0 Color.black 3 PTree.leaf

/-- A two-node heap used to exercise the rotation theorem: a BLACK root
(key 1, address 0) whose right child (key 2, address 1) is RED. -/
def c6heap : Nat → Option Obj := fun a =>
  if a = 0 then
    some ⟨⟨none, some 1, none, Color.black, 1⟩, 1⟩
  else if a = 1 then
    some ⟨⟨none, none, some 0, Color.red, 2⟩, 1⟩
  else none

/-- The tree state over c6heap. -/
def c6state : St := ⟨c6heap, some 0, 2⟩

/-- The pure view of c6state. -/
def c6tree : PTree :=
  PTree.node PTree.leaf 0 Color.black 1 (PTree.node PTree.leaf 1 Color.red 2 PTree.leaf)

end RBT

namespace Mem

/-!
The generic reference-counted heap object protocol of mem.c, modeled on its
own small state.  The finalizer function pointer is modeled by a flag plus a
log of the finalizer invocations (the finalizer body belongs to the
object's owner, not to mem.c).  The size argument of mem_allocate only
determines the payload size in C and has no observable effect here.
-/

/-- A heap object header: the reference count and whether a finalizer was
supplied (p_finalize != NULL). -/
structure MObj where
  refcount : Int
  hasFinalizer : Bool
deriving DecidableEq, Repr

/-- The allocator state: the heap, the next fresh address, and the log of
finalizer invocations (most recent first). -/
structure MSt where
  heap : Nat → Option MObj
  nextAddr : Nat
  finalized : List Nat

/-- The empty initial allocator state. -/
def mem_init : MSt :=
  { heap := fun _ => none, nextAddr := 0, finalized := [] }

/-- mem_allocate from mem.c: reference count starts at 1. -/
def mem_allocate (s : MSt) (hasFin : Bool) : MSt × Nat :=
  let a := s.nextAddr
  ({ heap := Function.update s.heap a (some { refcount := 1, hasFinalizer := hasFin })
   , nextAddr := a + 1
   , finalized := s.finalized }, a)

/-- mem_retain from mem.c: increment the count and return the same handle. -/
def mem_retain (s : MSt) (a : Nat) : Option (MSt × Nat) :=
  match s.heap a with
  | none => none
  | some o =>
      some ({ s with heap := Function.update s.heap a (some { o with refcount := o.refcount + 1 }) }, a)

/-- mem_release from mem.c: decrement the count; when the result is below 1,
invoke the finalizer if present and free the storage. -/
def mem_release (s : MSt) (a : Nat) : Option MSt :=
  match s.heap a with
  | none => none
  | some o =>
      let rc := o.refcount - 1
      if rc < 1 then
        some { heap := Function.update s.heap a none
             , nextAddr := s.nextAddr
             , finalized := if o.hasFinalizer then a :: s.finalized else s.finalized }
      else
        some { s with heap := Function.update s.heap a (some { o with refcount := rc }) }

/-- mem_num_references from mem.c. -/
def mem_num_references (s : MSt) (a : Nat) : Option Int :=
  (s.heap a).map MObj.refcount

end Mem

/-!
Theorems about the embedded program, one per claim, with witnesses for the
theorems that carry hypotheses.
-/

/-- Claim C7: when rbt_lookup finds nothing for a value, rbt_delete of that
value is a no-op that returns the very same tree state (not an error). -/
theorem claim_C7_delete_absent_noop (comp : Int → Int → Int) (fuel : Nat)
    (s : RBT.St) (v : Int) (h : RBT.rbt_lookup comp fuel s v = some none) :
    RBT.rbt_delete comp fuel s v = some s := by
  simp [RBT.rbt_delete, h]

/-- Witness for claim C7: deleting 5 from the empty tree returns it
unchanged. -/
theorem claim_C7_witness :
    RBT.rbt_delete RBT.icmp 1 RBT.rbt_new 5 = some RBT.rbt_new :=
  claim_C7_delete_absent_noop RBT.icmp 1 RBT.rbt_new 5 (by decide)

/-- Claim C8: in the deletion rebalance, a node with no parent is simply
recolored BLACK: the result is exactly the input state with only that one
node's color field replaced by BLACK, every other address and the root
pointer untouched, and when the node was already BLACK the state is
completely unchanged. -/
theorem claim_C8_root_rebalance_recolor (fuel : Nat) (s : RBT.St) (a : Nat)
    (o : RBT.Obj) (h : s.heap a = some o) (hp : o.node.parent = none) :
    ∃ s', RBT.rbt_del_rebalance (fuel + 1) s a = some s' ∧
      s'.root = s.root ∧ s'.nextAddr = s.nextAddr ∧
      s'.heap a = some { o with node := { o.node with color := RBT.Color.black } } ∧
      (∀ b, b ≠ a → s'.heap b = s.heap b) ∧
      (o.node.color = RBT.Color.black → s' = s) := by
  have h1 : RBT.rbt_del_rebalance (fuel + 1) s a =
      RBT.modifyNode s a (fun m => { m with color := RBT.Color.black }) := by
    simp [RBT.rbt_del_rebalance, RBT.readNode, h, hp]
  rw [h1, RBT.modifyNode, h]
  refine ⟨_, rfl, rfl, rfl, Function.update_same a _ _, fun b hb => Function.update_noteq hb _ _, fun hc => ?_⟩
  have h2 : { o with node := { o.node with color := RBT.Color.black } } = o := by
    rcases o with ⟨⟨l, r, pp, c, k⟩, rc⟩
    simp only at hc
    simp [hc]
  rw [h2, ← h, Function.update_eq_self]

/-- Witness for claim C8: the rebalance of the parentless BLACK root of the
one-node tree c8state leaves the state identical. -/
theorem claim_C8_witness :
    ∃ s', RBT.rbt_del_rebalance 3 RBT.c8state 0 = some s' ∧ s' = RBT.c8state := by
  obtain ⟨s', heq, -, -, -, -, hsame⟩ :=
    claim_C8_root_rebalance_recolor 2 RBT.c8state 0 _ rfl rfl
  exact ⟨s', heq, hsame rfl⟩

/-- Claim C5: the reference counting protocol of mem.c: mem_allocate starts
the count at 1; mem_retain adds 1 and hands back the same address;
mem_release subtracts 1 and, exactly when the result is below 1, invokes
the finalizer (when present) and frees the storage; and in the concrete
allocate-retain-release-release scenario the count reads 2 after the
retain and the storage dies at the second release, not the first. -/
theorem claim_C5_refcount_protocol :
    (∀ (s : Mem.MSt) (f : Bool),
      (Mem.mem_allocate s f).1.heap (Mem.mem_allocate s f).2 =
        some { refcount := 1, hasFinalizer := f }) ∧
    (∀ (s : Mem.MSt) (a : Nat) (o : Mem.MObj), s.heap a = some o →
      ∃ s', Mem.mem_retain s a = some (s', a) ∧
        s'.heap a = some { o with refcount := o.refcount + 1 } ∧
        (∀ b, b ≠ a → s'.heap b = s.heap b) ∧
        s'.finalized = s.finalized) ∧
    (∀ (s : Mem.MSt) (a : Nat) (o : Mem.MObj), s.heap a = some o →
      ∃ s', Mem.mem_release s a = some s' ∧
        (o.refcount - 1 < 1 →
          s'.heap a = none ∧
          s'.finalized = (if o.hasFinalizer then a :: s.finalized else s.finalized)) ∧
        (¬ o.refcount - 1 < 1 →
          s'.heap a = some { o with refcount := o.refcount - 1 } ∧
          s'.finalized = s.finalized)) ∧
    ((Mem.mem_retain (Mem.mem_allocate Mem.mem_init true).1 0).map Prod.snd = some 0 ∧
      (Mem.mem_retain (Mem.mem_allocate Mem.mem_init true).1 0).bind
        (fun p => Mem.mem_num_references p.1 0) = some 2 ∧
      ((Mem.mem_retain (Mem.mem_allocate Mem.mem_init true).1 0).bind
        (fun p => Mem.mem_release p.1 0)).map
          (fun s3 => ((s3.heap 0).isSome, s3.finalized)) = some (true, []) ∧
      (((Mem.mem_retain (Mem.mem_allocate Mem.mem_init true).1 0).bind
        (fun p => Mem.mem_release p.1 0)).bind
          (fun s3 => Mem.mem_release s3 0)).map
            (fun s4 => ((s4.heap 0).isNone, s4.finalized)) = some (true, [0])) := by
  refine ⟨?_, ?_, ?_, by decide, by decide, by decide, by decide⟩
  · intro s f
    simp [Mem.mem_allocate]
  · intro s a o h
    refine ⟨{ s with heap := Function.update s.heap a (some { o with refcount := o.refcount + 1 }) }, by simp [Mem.mem_retain, h], ?_, fun b hb => ?_, rfl⟩
    · simp [Function.update_same]
    · simp [Function.update_noteq hb]
  · intro s a o h
    by_cases hlt : o.refcount - 1 < 1
    · refine ⟨{ heap := Function.update s.heap a none, nextAddr := s.nextAddr, finalized := if o.hasFinalizer then a :: s.finalized else s.finalized }, by simp [Mem.mem_release, h, hlt], fun _ => ⟨?_, rfl⟩, fun hc => absurd hlt hc⟩
      simp [Function.update_same]
    · refine ⟨{ s with heap := Function.update s.heap a (some { o with refcount := o.refcount - 1 }) }, by simp [Mem.mem_release, h, hlt], fun hc => absurd hc hlt, fun _ => ⟨?_, rfl⟩⟩
      simp [Function.update_same]

/-- Witness for claim C5: the retain clause applied to the concrete object
freshly allocated with a finalizer. -/
theorem claim_C5_witness :
    ∃ s', Mem.mem_retain (Mem.mem_allocate Mem.mem_init true).1 0 = some (s', 0) ∧
      s'.heap 0 = some { refcount := 2, hasFinalizer := true } := by
  obtain ⟨s', heq, hh, -, -⟩ :=
    claim_C5_refcount_protocol.2.1 (Mem.mem_allocate Mem.mem_init true).1 0
      { refcount := 1, hasFinalizer := true } rfl
  exact ⟨s', heq, hh⟩

/-- Claim C1 (code bug): after the insert sequence 10, 20, 30, 40 the
validator reports OK, but the very next operation, rbt_delete of 20 (a node
with two children whose removal rebalances with a rotation at the doomed
node), leaves a state in which the node at tree->root (address 0, key 10)
carries a non-null parent back-reference to address 2 (key 30), so the
red-black invariants do not survive every operation: the code's own
validator reports BAD_PARENT_POINTER. -/
theorem claim_C1_delete_breaks_invariants :
    (RBT.runOps RBT.icmp 32 RBT.rbt_new
        [RBT.Op.ins 10, RBT.Op.ins 20, RBT.Op.ins 30, RBT.Op.ins 40]).bind
      (RBT.rbt_check_status RBT.icmp 32) = some RBT.Status.OK ∧
    (RBT.runOps RBT.icmp 32 RBT.rbt_new
        [RBT.Op.ins 10, RBT.Op.ins 20, RBT.Op.ins 30, RBT.Op.ins 40, RBT.Op.del 20]).bind
      (RBT.rbt_check_status RBT.icmp 32) = some RBT.Status.BAD_PARENT_POINTER ∧
    (RBT.runOps RBT.icmp 32 RBT.rbt_new
        [RBT.Op.ins 10, RBT.Op.ins 20, RBT.Op.ins 30, RBT.Op.ins 40, RBT.Op.del 20]).bind
      (fun s => (RBT.readNode s 0).map (fun n => (s.root, n.parent))) =
        some (some 0, some 2) := by
  refine ⟨by decide, by decide, by decide⟩

/-- Claim C4 (code bug): in the same run as claim C1, deleting key 20 (two
children) splices the predecessor (address 0) into the ROOT slot via the
stale pre-rebalance parent variable, although after the rebalance rotation
the doomed node's position was the left child slot of address 2 (key 30):
that slot is left pointing at the freed address 1, the predecessor's parent
back-reference names address 2, and the root pointer names the
predecessor.  The predecessor is not spliced into the deleted node's
structural position. -/
theorem claim_C4_stale_parent_splice :
    (RBT.runOps RBT.icmp 32 RBT.rbt_new
        [RBT.Op.ins 10, RBT.Op.ins 20, RBT.Op.ins 30, RBT.Op.ins 40, RBT.Op.del 20]).bind
      (fun s => (RBT.readNode s 2).map RBT.Node.left) = some (some 1) ∧
    (RBT.runOps RBT.icmp 32 RBT.rbt_new
        [RBT.Op.ins 10, RBT.Op.ins 20, RBT.Op.ins 30, RBT.Op.ins 40, RBT.Op.del 20]).map
      (fun s => (s.heap 1).isNone) = some true ∧
    (RBT.runOps RBT.icmp 32 RBT.rbt_new
        [RBT.Op.ins 10, RBT.Op.ins 20, RBT.Op.ins 30, RBT.Op.ins 40, RBT.Op.del 20]).bind
      (fun s => (RBT.readNode s 0).map (fun n => (s.root, n.parent))) =
        some (some 0, some 2) := by
  refine ⟨by decide, by decide, by decide⟩

/-- Claim C3 (code bug): on the hand-built tree c3state, whose node at
address 1 is RED with a RED left child at address 2 (all node colors valid,
no earlier violation on the walk), rbt_check_status reports OK instead of
RED_WITH_RED_CHILD, because the validator's red-red test demands that both
children be non-BLACK. -/
theorem claim_C3_red_red_not_flagged :
    RBT.rbt_check_status RBT.icmp 8 RBT.c3state = some RBT.Status.OK ∧
    (RBT.readNode RBT.c3state 1).map RBT.Node.color = some RBT.Color.red ∧
    (RBT.readNode RBT.c3state 1).map RBT.Node.left = some (some 2) ∧
    (RBT.readNode RBT.c3state 2).map RBT.Node.color = some RBT.Color.red := by
  refine ⟨by decide, by decide, by decide, by decide⟩

/-- Claim C2, counterexample: inserting the key 5 twice creates the root at
address 0 and then a second node at address 1 (the node last inserted with
a key comparator-equal to 5), yet rbt_lookup for 5 returns the node at
address 0, not the last-inserted node at address 1. -/
theorem claim_C2_counterexample :
    ((RBT.rbt_insert RBT.icmp 16 RBT.rbt_new 5).bind
        (fun p => RBT.rbt_insert RBT.icmp 16 p.1 5)).map Prod.snd = some 1 ∧
    ((RBT.rbt_insert RBT.icmp 16 RBT.rbt_new 5).bind
        (fun p => RBT.rbt_insert RBT.icmp 16 p.1 5)).bind
      (fun p => (RBT.readNode p.1 1).map RBT.Node.contents) = some 5 ∧
    RBT.icmp 5 5 = 0 ∧
    ((RBT.rbt_insert RBT.icmp 16 RBT.rbt_new 5).bind
        (fun p => RBT.rbt_insert RBT.icmp 16 p.1 5)).bind
      (fun p => RBT.rbt_lookup RBT.icmp 16 p.1 5) = some (some 0) := by
  refine ⟨by decide, by decide, by decide, by decide⟩

/-- Destructure a successful monadic bind on Option. -/
theorem obind_eq_some {α β : Type} {x : Option α} {f : α → Option β} {b : β}
    (h : x >>= f = some b) : ∃ a, x = some a ∧ f a = some b := by
  cases x with
  | none => exact absurd h (by simp)
  | some a => exact ⟨a, rfl, h⟩

/-- Reflexivity of SameObjs. -/
theorem sameObjs_refl (s : RBT.St) : RBT.SameObjs s s :=
  fun _ => rfl

/-- Transitivity of SameObjs. -/
theorem sameObjs_trans {s t u : RBT.St} (h1 : RBT.SameObjs s t)
    (h2 : RBT.SameObjs t u) : RBT.SameObjs s u :=
  fun a => (h2 a).trans (h1 a)

/-- A field update through modifyNode with a contents-preserving function
relates the states by SameObjs. -/
theorem modifyNode_sameObjs {s s' : RBT.St} {a : Nat} {f : RBT.Node → RBT.Node}
    (h : RBT.modifyNode s a f = some s')
    (hf : ∀ m, (f m).contents = m.contents) : RBT.SameObjs s s' := by
  rw [RBT.modifyNode] at h
  cases hsa : s.heap a with
  | none => rw [hsa] at h; exact absurd h (by simp)
  | some o =>
    rw [hsa] at h
    obtain rfl := Option.some.inj h
    intro b
    by_cases hb : b = a
    · subst hb
      simp [Function.update_same, hsa, hf]
    · simp [Function.update_noteq hb]

/-- Setting the root pointer relates the states by SameObjs. -/
theorem setRoot_sameObjs (s : RBT.St) (r : Option Nat) :
    RBT.SameObjs s (RBT.setRoot s r) :=
  fun _ => rfl

/-- A successful rotation at a NULL pivot is impossible: the first
dereference fails. -/
theorem rotate_none (s : RBT.St) (d : RBT.Dir) : RBT.rotate s none d = none :=
  rfl

/-- The rotation primitive never allocates, frees, or changes contents or
reference counts. -/
theorem rotate_sameObjs {s : RBT.St} {aO : Option Nat} {d : RBT.Dir} {s' : RBT.St}
    (h : RBT.rotate s aO d = some s') : RBT.SameObjs s s' := by
  rw [RBT.rotate] at h
  rcases obind_eq_some h with ⟨a, ha, h⟩
  try dsimp only at h
  rcases obind_eq_some h with ⟨n, hn, h⟩
  try dsimp only at h
  split at h
  · obtain rfl := Option.some.inj h
    exact sameObjs_refl s
  · rename_i e he
    rcases obind_eq_some h with ⟨s1, h1, h⟩
    have H1 : RBT.SameObjs s s1 := by
      try dsimp only at h1
      rcases obind_eq_some h1 with ⟨n1, hn1, h1⟩
      try dsimp only at h1
      split at h1
      · obtain rfl := Option.some.inj h1
        exact setRoot_sameObjs s (some e)
      · try dsimp only at h1
        rcases obind_eq_some h1 with ⟨qn, hqn, h1⟩
        try dsimp only at h1
        split at h1
        · exact modifyNode_sameObjs h1 (fun m => rfl)
        · exact modifyNode_sameObjs h1 (fun m => rfl)
    try dsimp only at h
    rcases obind_eq_some h with ⟨n2, hn2, h⟩
    try dsimp only at h
    rcases obind_eq_some h with ⟨s2, h2, h⟩
    have H2 : RBT.SameObjs s1 s2 := modifyNode_sameObjs h2 (fun m => rfl)
    cases d
    case left =>
      try dsimp only at h
      rcases obind_eq_some h with ⟨en, hen, h⟩
      try dsimp only at h
      rcases obind_eq_some h with ⟨s3, h3, h⟩
      have H3 : RBT.SameObjs s2 s3 := modifyNode_sameObjs h3 (fun m => rfl)
      try dsimp only at h
      split at h
      · try dsimp only at h
        rcases obind_eq_some h with ⟨s4, h4, h⟩
        obtain rfl := Option.some.inj h4
        try dsimp only at h
        rcases obind_eq_some h with ⟨s5, h5, h⟩
        have H5 : RBT.SameObjs s3 s5 := modifyNode_sameObjs h5 (fun m => rfl)
        have H6 : RBT.SameObjs s5 s' := modifyNode_sameObjs h (fun m => rfl)
        exact sameObjs_trans H1 (sameObjs_trans H2 (sameObjs_trans H3
          (sameObjs_trans H5 H6)))
      · rename_i t ht
        try dsimp only at h
        rcases obind_eq_some h with ⟨s4, h4, h⟩
        have H4 : RBT.SameObjs s3 s4 := modifyNode_sameObjs h4 (fun m => rfl)
        try dsimp only at h
        rcases obind_eq_some h with ⟨s5, h5, h⟩
        have H5 : RBT.SameObjs s4 s5 := modifyNode_sameObjs h5 (fun m => rfl)
        have H6 : RBT.SameObjs s5 s' := modifyNode_sameObjs h (fun m => rfl)
        exact sameObjs_trans H1 (sameObjs_trans H2 (sameObjs_trans H3
          (sameObjs_trans H4 (sameObjs_trans H5 H6))))
    case right =>
      try dsimp only at h
      rcases obind_eq_some h with ⟨en, hen, h⟩
      try dsimp only at h
      rcases obind_eq_some h with ⟨s3, h3, h⟩
      have H3 : RBT.SameObjs s2 s3 := modifyNode_sameObjs h3 (fun m => rfl)
      try dsimp only at h
      split at h
      · try dsimp only at h
        rcases obind_eq_some h with ⟨s4, h4, h⟩
        obtain rfl := Option.some.inj h4
        try dsimp only at h
        rcases obind_eq_some h with ⟨s5, h5, h⟩
        have H5 : RBT.SameObjs s3 s5 := modifyNode_sameObjs h5 (fun m => rfl)
        have H6 : RBT.SameObjs s5 s' := modifyNode_sameObjs h (fun m => rfl)
        exact sameObjs_trans H1 (sameObjs_trans H2 (sameObjs_trans H3
          (sameObjs_trans H5 H6)))
      · rename_i t ht
        try dsimp only at h
        rcases obind_eq_some h with ⟨s4, h4, h⟩
        have H4 : RBT.SameObjs s3 s4 := modifyNode_sameObjs h4 (fun m => rfl)
        try dsimp only at h
        rcases obind_eq_some h with ⟨s5, h5, h⟩
        have H5 : RBT.SameObjs s4 s5 := modifyNode_sameObjs h5 (fun m => rfl)
        have H6 : RBT.SameObjs s5 s' := modifyNode_sameObjs h (fun m => rfl)
        exact sameObjs_trans H1 (sameObjs_trans H2 (sameObjs_trans H3
          (sameObjs_trans H4 (sameObjs_trans H5 H6))))

/-- The insertion rebalance helper preserves objects. -/
theorem rbt_ins_rebalance_sameObjs {s : RBT.St} {a : Nat} {d : RBT.Dir} {s' : RBT.St}
    (h : RBT.rbt_ins_rebalance s a d = some s') : RBT.SameObjs s s' := by
  rw [RBT.rbt_ins_rebalance.eq_def] at h
  try dsimp only at h
  rcases obind_eq_some h with ⟨n, hn, h⟩
  try dsimp only at h
  cases hpar : n.parent with
  | none =>
    rw [hpar] at h
    rcases obind_eq_some h with ⟨y, hy, h⟩
    obtain rfl := Option.some.inj hy
    rcases obind_eq_some h with ⟨s1, h1, h⟩
    rw [rotate_none] at h1
    exact absurd h1 (by simp)
  | some p =>
    rw [hpar] at h
    try dsimp only at h
    rcases obind_eq_some h with ⟨gpO, hgp, h⟩
    try dsimp only at h
    rcases obind_eq_some h with ⟨s1, h1, h⟩
    have H1 : RBT.SameObjs s s1 := rotate_sameObjs h1
    rcases obind_eq_some h with ⟨p2, hp2, h⟩
    obtain rfl := Option.some.inj hp2
    try dsimp only at h
    rcases obind_eq_some h with ⟨s2, h2, h⟩
    have H2 : RBT.SameObjs s1 s2 := modifyNode_sameObjs h2 (fun m => rfl)
    try dsimp only at h
    rcases obind_eq_some h with ⟨gp, hgp2, h⟩
    exact sameObjs_trans H1 (sameObjs_trans H2 (modifyNode_sameObjs h (fun m => rfl)))

/-- The insertion fix-up preserves objects. -/
theorem rbt_ins_recolor_sameObjs : ∀ (fuel : Nat) (s : RBT.St) (a : Nat) (s' : RBT.St),
    RBT.rbt_ins_recolor fuel s a = some s' → RBT.SameObjs s s' := by
  intro fuel
  induction fuel with
  | zero => intro s a s' h; exact absurd h (by simp [RBT.rbt_ins_recolor])
  | succ fuel ih =>
    intro s a s' h
    rw [RBT.rbt_ins_recolor] at h
    try dsimp only at h
    rcases obind_eq_some h with ⟨n, hn, h⟩
    try dsimp only at h
    cases hpar : n.parent with
    | none =>
      rw [hpar] at h
      try dsimp only at h
      rcases obind_eq_some h with ⟨y, hy, h⟩
      obtain rfl := Option.some.inj hy
      try dsimp only at h
      rcases obind_eq_some h with ⟨u0, hu0, h⟩
      exact modifyNode_sameObjs h (fun m => rfl)
    | some p =>
      rw [hpar] at h
      try dsimp only at h
      rcases obind_eq_some h with ⟨gpO, hgp, h⟩
      try dsimp only at h
      rcases gpO with _ | gp
      · rcases obind_eq_some h with ⟨uncleO, hun, h⟩
        obtain rfl := Option.some.inj hun
        try dsimp only at h
        rcases obind_eq_some h with ⟨pc, hpc, h⟩
        try dsimp only at h
        split at h
        · obtain rfl := Option.some.inj h
          exact sameObjs_refl s
        · try dsimp only at h
          rcases obind_eq_some h with ⟨uc, huc, h⟩
          try dsimp only at h
          split at h
          · rcases obind_eq_some h with ⟨gp, hgp2, h⟩
            exact absurd hgp2 (by simp)
          · try dsimp only at h
            rcases obind_eq_some h with ⟨pn, hpn, h⟩
            try dsimp only at h
            rcases obind_eq_some h with ⟨gp, hgp2, h⟩
            exact absurd hgp2 (by simp)
      · try dsimp only at h
        rcases obind_eq_some h with ⟨gpn0, hgpn0, h⟩
        try dsimp only at h
        rcases obind_eq_some h with ⟨uncleO, hun, h⟩
        try dsimp only at h
        rcases obind_eq_some h with ⟨pc, hpc, h⟩
        try dsimp only at h
        split at h
        · obtain rfl := Option.some.inj h
          exact sameObjs_refl s
        · try dsimp only at h
          rcases obind_eq_some h with ⟨uc, huc, h⟩
          try dsimp only at h
          split at h
          · rcases obind_eq_some h with ⟨gp2, hgp2, h⟩
            obtain rfl := Option.some.inj hgp2
            try dsimp only at h
            rcases obind_eq_some h with ⟨s1, h1, h⟩
            have H1 : RBT.SameObjs s s1 := modifyNode_sameObjs h1 (fun m => rfl)
            try dsimp only at h
            rcases obind_eq_some h with ⟨s2, h2, h⟩
            have H2 : RBT.SameObjs s1 s2 := modifyNode_sameObjs h2 (fun m => rfl)
            try dsimp only at h
            rcases obind_eq_some h with ⟨u, hu2, h⟩
            try dsimp only at h
            rcases obind_eq_some h with ⟨s3, h3, h⟩
            have H3 : RBT.SameObjs s2 s3 := modifyNode_sameObjs h3 (fun m => rfl)
            exact sameObjs_trans H1 (sameObjs_trans H2 (sameObjs_trans H3 (ih s3 gp s' h)))
          · try dsimp only at h
            rcases obind_eq_some h with ⟨pn, hpn, h⟩
            try dsimp only at h
            rcases obind_eq_some h with ⟨gp2, hgp2, h⟩
            obtain rfl := Option.some.inj hgp2
            try dsimp only at h
            rcases obind_eq_some h with ⟨gpn, hgpn, h⟩
            try dsimp only at h
            repeat' split at h
            all_goals try (rcases obind_eq_some h with ⟨s1, h1, h⟩; exact sameObjs_trans (rotate_sameObjs h1) (rbt_ins_rebalance_sameObjs h))
            all_goals exact rbt_ins_rebalance_sameObjs h

/-- The recursive insertion descent preserves objects. -/
theorem rbt_insert_node_sameObjs : ∀ (comp : Int → Int → Int) (fuel : Nat)
    (s : RBT.St) (a : Nat) (pO : Option Nat) (s' : RBT.St),
    RBT.rbt_insert_node comp fuel s a pO = some s' → RBT.SameObjs s s' := by
  intro comp fuel
  induction fuel with
  | zero => intro s a pO s' h; exact absurd h (by simp [RBT.rbt_insert_node])
  | succ fuel ih =>
    intro s a pO s' h
    rw [RBT.rbt_insert_node.eq_def] at h
    try dsimp only at h
    rcases pO with _ | p
    · try dsimp only at h
      exact sameObjs_trans (setRoot_sameObjs s (some a))
        (rbt_ins_recolor_sameObjs fuel _ a s' h)
    · try dsimp only at h
      rcases obind_eq_some h with ⟨an, han, h⟩
      try dsimp only at h
      rcases obind_eq_some h with ⟨pn, hpn, h⟩
      try dsimp only at h
      split at h
      · cases hpl : pn.left with
        | some l =>
          rw [hpl] at h
          try dsimp only at h
          exact ih s a _ s' h
        | none =>
          rw [hpl] at h
          try dsimp only at h
          rcases obind_eq_some h with ⟨s1, h1, h⟩
          have H1 : RBT.SameObjs s s1 := modifyNode_sameObjs h1 (fun m => rfl)
          try dsimp only at h
          rcases obind_eq_some h with ⟨s2, h2, h⟩
          have H2 : RBT.SameObjs s1 s2 := modifyNode_sameObjs h2 (fun m => rfl)
          exact sameObjs_trans H1 (sameObjs_trans H2 (rbt_ins_recolor_sameObjs fuel s2 a s' h))
      · cases hpr : pn.right with
        | some r =>
          rw [hpr] at h
          try dsimp only at h
          exact ih s a _ s' h
        | none =>
          rw [hpr] at h
          try dsimp only at h
          rcases obind_eq_some h with ⟨s1, h1, h⟩
          have H1 : RBT.SameObjs s s1 := modifyNode_sameObjs h1 (fun m => rfl)
          try dsimp only at h
          rcases obind_eq_some h with ⟨s2, h2, h⟩
          have H2 : RBT.SameObjs s1 s2 := modifyNode_sameObjs h2 (fun m => rfl)
          exact sameObjs_trans H1 (sameObjs_trans H2 (rbt_ins_recolor_sameObjs fuel s2 a s' h))

/-- Claim C9: rbt_insert always creates one fresh node rather than replacing
or rejecting: the returned address is the fresh allocation, it holds the
inserted contents, every previously present node is still present
afterwards with unchanged contents and reference count (so a node with a
comparator-equal key accumulates alongside the new one, one node per insert
call), and the descent sends a key comparator-equal to the probed node's
key into the right subtree. -/
theorem claim_C9_duplicate_inserts (comp : Int → Int → Int) (fuel : Nat)
    (s s' : RBT.St) (v : Int) (na : Nat)
    (hins : RBT.rbt_insert comp fuel s v = some (s', na))
    (hfresh : s.heap s.nextAddr = none) :
    na = s.nextAddr ∧
    (∃ o', s'.heap na = some o' ∧ o'.node.contents = v) ∧
    (∀ b o, s.heap b = some o →
      b ≠ na ∧ ∃ o', s'.heap b = some o' ∧
        o'.node.contents = o.node.contents ∧ o'.refcount = o.refcount) ∧
    (∀ (s2 : RBT.St) (a p r f2 : Nat) (an pn : RBT.Node),
      RBT.readNode s2 a = some an → RBT.readNode s2 p = some pn →
      comp an.contents pn.contents = 0 → pn.right = some r →
      RBT.rbt_insert_node comp (f2 + 1) s2 a (some p) =
        RBT.rbt_insert_node comp f2 s2 a (some r)) := by
  rw [RBT.rbt_insert] at hins
  rcases Option.map_eq_some'.mp hins with ⟨t, ht, heq⟩
  have hpair : (t, s.nextAddr) = (s', na) := heq
  have h1 : s' = t := (congrArg Prod.fst hpair).symm
  have h2 : na = s.nextAddr := (congrArg Prod.snd hpair).symm
  subst h1
  subst h2
  have hsame : RBT.SameObjs (RBT.rbt_node_new s v).1 s' :=
    rbt_insert_node_sameObjs comp fuel _ s.nextAddr _ s' ht
  have hnew : (RBT.rbt_node_new s v).1.heap s.nextAddr =
      some { node := { left := none, right := none, parent := none, color := RBT.Color.red, contents := v }, refcount := 1 } := by
    simp [RBT.rbt_node_new, Function.update_same]
  refine ⟨rfl, ?_, ?_, ?_⟩
  · have hx := hsame s.nextAddr
    rw [hnew] at hx
    cases hy : s'.heap s.nextAddr with
    | none => rw [hy] at hx; exact absurd hx (by simp)
    | some o' =>
      rw [hy] at hx
      simp only [Option.map_some', Option.some.injEq, Prod.mk.injEq] at hx
      exact ⟨o', rfl, hx.1⟩
  · intro b o hb
    have hbne : b ≠ s.nextAddr := fun hc => by rw [hc, hfresh] at hb; cases hb
    have hb1 : (RBT.rbt_node_new s v).1.heap b = some o := by
      simp only [RBT.rbt_node_new]
      rw [Function.update_noteq hbne]
      exact hb
    have hx := hsame b
    rw [hb1] at hx
    cases hy : s'.heap b with
    | none => rw [hy] at hx; exact absurd hx (by simp)
    | some o' =>
      rw [hy] at hx
      simp only [Option.map_some', Option.some.injEq, Prod.mk.injEq] at hx
      exact ⟨hbne, o', rfl, hx.1, hx.2⟩
  · intro s2 a p r f2 an pn han hpn hc hr
    rw [RBT.rbt_insert_node.eq_def]
    dsimp only
    rw [han, hpn]
    show (if comp an.contents pn.contents < 0 then _ else _) = _
    rw [hc]
    norm_num
    rw [hr]

theorem reprOk_congr {h h' : Nat → Option RBT.Obj} {par : Option Nat} {t : RBT.PTree}
    (hag : ∀ x ∈ t.addrs, h' x = h x) : RBT.reprOk h' par t = RBT.reprOk h par t := by
  induction t generalizing par with
  | leaf => rfl
  | node l a c k r ihl ihr =>
    have ha : h' a = h a := hag a (by simp [RBT.PTree.addrs])
    have hl : ∀ x ∈ l.addrs, h' x = h x := fun x hx => hag x (by simp [RBT.PTree.addrs, hx])
    have hr : ∀ x ∈ r.addrs, h' x = h x := fun x hx => hag x (by simp [RBT.PTree.addrs, hx])
    rw [RBT.reprOk, RBT.reprOk, ha, ihl hl, ihr hr]

theorem reprOk_node {h : Nat → Option RBT.Obj} {par : Option Nat}
    {l r : RBT.PTree} {a : Nat} {c : RBT.Color} {k : Int} :
    RBT.reprOk h par (RBT.PTree.node l a c k r) = true ↔
      ∃ o, h a = some o ∧
        o.node = { left := l.rootA, right := r.rootA, parent := par, color := c, contents := k } ∧
        RBT.reprOk h (some a) l = true ∧ RBT.reprOk h (some a) r = true := by
  rw [RBT.reprOk]
  cases hx : h a with
  | none => simp
  | some o => simp [Bool.and_eq_true, decide_eq_true_eq, and_assoc]

theorem nodup_node {l r : RBT.PTree} {a : Nat} {c : RBT.Color} {k : Int}
    (h : (RBT.PTree.node l a c k r).addrs.Nodup) :
    l.addrs.Nodup ∧ r.addrs.Nodup ∧ a ∉ l.addrs ∧ a ∉ r.addrs ∧
      ∀ x ∈ l.addrs, x ∉ r.addrs := by
  rw [RBT.PTree.addrs] at h
  have h1 := h.of_append_left
  have h2 := (h.of_append_right : (a :: r.addrs).Nodup)
  have hd := List.disjoint_of_nodup_append h
  exact ⟨h1, h2.of_cons, fun hc => (hd hc) (by simp), (List.nodup_cons.mp h2).1,
    fun x hx hc => (hd hx) (by simp [hc])⟩

theorem rot1_inorder (d : RBT.Dir) (t : RBT.PTree) :
    (RBT.rot1 d t).inorder = t.inorder := by
  cases d <;> cases t with
  | leaf => rfl
  | node l a c k r =>
    first
    | rfl
    | cases r with
      | leaf => rfl
      | node rl e ec ek rr => simp [RBT.rot1, RBT.PTree.inorder]
    | cases l with
      | leaf => rfl
      | node ll e ec ek lr => simp [RBT.rot1, RBT.PTree.inorder]

theorem rot1_left_inorder (t : RBT.PTree) :
    (RBT.rot1 RBT.Dir.left t).inorder = t.inorder := by
  cases t with
  | leaf => rfl
  | node l a c k r =>
    cases r with
    | leaf => rfl
    | node rl e ec ek rr => simp [RBT.rot1, RBT.PTree.inorder]

theorem rot1_right_inorder (t : RBT.PTree) :
    (RBT.rot1 RBT.Dir.right t).inorder = t.inorder := by
  cases t with
  | leaf => rfl
  | node l a c k r =>
    cases l with
    | leaf => rfl
    | node ll e ec ek lr => simp [RBT.rot1, RBT.PTree.inorder]

theorem replaceA_not_mem {t : RBT.PTree} {p : Nat} {x : RBT.PTree}
    (h : p ∉ t.addrs) : t.replaceA p x = t := by
  induction t with
  | leaf => rfl
  | node l a c k r ihl ihr =>
    rw [RBT.PTree.addrs] at h
    simp only [List.mem_append, List.mem_cons] at h
    push_neg at h
    rw [RBT.PTree.replaceA, if_neg (fun hc => h.2.1 hc.symm), ihl h.1, ihr h.2.2]

theorem findA_some {t : RBT.PTree} {p : Nat} {sub : RBT.PTree}
    (h : t.findA p = some sub) : p ∈ t.addrs ∧ sub.rootA = some p := by
  induction t with
  | leaf => simp [RBT.PTree.findA] at h
  | node l a c k r ihl ihr =>
    rw [RBT.PTree.findA] at h
    by_cases ha : a = p
    · rw [if_pos ha] at h
      obtain rfl := Option.some.inj h
      subst ha
      exact ⟨by simp [RBT.PTree.addrs], rfl⟩
    · rw [if_neg ha] at h
      cases hl : l.findA p with
      | some subl =>
        rw [hl] at h
        simp only [Option.orElse] at h
        obtain rfl := Option.some.inj h
        obtain ⟨hm, hr⟩ := ihl hl
        exact ⟨by simp [RBT.PTree.addrs, hm], hr⟩
      | none =>
        rw [hl] at h
        simp only [Option.orElse] at h
        obtain ⟨hm, hr⟩ := ihr h
        exact ⟨by simp [RBT.PTree.addrs, hm], hr⟩

theorem mem_findA {t : RBT.PTree} {p : Nat} (h : p ∈ t.addrs) :
    ∃ sub, t.findA p = some sub := by
  induction t with
  | leaf => simp [RBT.PTree.addrs] at h
  | node l a c k r ihl ihr =>
    rw [RBT.PTree.findA]
    by_cases ha : a = p
    · exact ⟨_, if_pos ha⟩
    · rw [if_neg ha]
      rw [RBT.PTree.addrs] at h
      simp only [List.mem_append, List.mem_cons] at h
      rcases h with hm | hm | hm
      · obtain ⟨sub, hs⟩ := ihl hm
        exact ⟨sub, by simp [hs, Option.orElse]⟩
      · exact absurd hm.symm ha
      · obtain ⟨sub, hs⟩ := ihr hm
        cases hl : l.findA p with
        | some s2 => exact ⟨s2, by simp [hl, Option.orElse]⟩
        | none => exact ⟨sub, by simp [hl, hs, Option.orElse]⟩

theorem addrs_eq_map (t : RBT.PTree) : t.addrs = t.inorder.map Prod.fst := by
  induction t with
  | leaf => rfl
  | node l a c k r ihl ihr =>
    rw [RBT.PTree.addrs, RBT.PTree.inorder, ihl, ihr]
    simp

theorem rootA_replaceA {t : RBT.PTree} {p : Nat} {x : RBT.PTree}
    (h : t.rootA ≠ some p) : (t.replaceA p x).rootA = t.rootA := by
  cases t with
  | leaf => rfl
  | node l a c k r =>
    rw [RBT.PTree.replaceA, if_neg (fun hc => h (by rw [RBT.PTree.rootA, hc]))]
    rfl

theorem findA_node_cases {l r : RBT.PTree} {a : Nat} {c : RBT.Color} {k : Int}
    {p : Nat} {sub : RBT.PTree}
    (h : (RBT.PTree.node l a c k r).findA p = some sub)
    (hnd : (RBT.PTree.node l a c k r).addrs.Nodup) :
    (a = p ∧ sub = RBT.PTree.node l a c k r) ∨
    (a ≠ p ∧ l.findA p = some sub ∧ p ∈ l.addrs ∧ p ∉ r.addrs ∧ p ≠ a) ∨
    (a ≠ p ∧ r.findA p = some sub ∧ p ∈ r.addrs ∧ p ∉ l.addrs ∧ p ≠ a) := by
  rw [RBT.PTree.findA] at h
  obtain ⟨hndl, hndr, hal, har, hdisj⟩ := nodup_node hnd
  by_cases ha : a = p
  · rw [if_pos ha] at h
    exact Or.inl ⟨ha, (Option.some.inj h).symm⟩
  · rw [if_neg ha] at h
    cases hl : l.findA p with
    | some subl =>
      rw [hl] at h
      simp only [Option.orElse] at h
      obtain ⟨hm, -⟩ := findA_some hl
      refine Or.inr (Or.inl ⟨ha, ?_, hm, fun hc => hdisj p hm hc,
        fun hc => ha (by rw [hc])⟩)
      exact h
    | none =>
      rw [hl] at h
      simp only [Option.orElse] at h
      obtain ⟨hm, -⟩ := findA_some h
      refine Or.inr (Or.inr ⟨ha, h, hm, fun hc => hdisj p hc hm,
        fun hc => ha (by rw [hc])⟩)

theorem inorder_replace_rot {t : RBT.PTree} {p : Nat} {sub : RBT.PTree} {d : RBT.Dir}
    (h : t.findA p = some sub) (hnd : t.addrs.Nodup) :
    (t.replaceA p (RBT.rot1 d sub)).inorder = t.inorder := by
  induction t with
  | leaf => simp [RBT.PTree.findA] at h
  | node l a c k r ihl ihr =>
    obtain ⟨hndl, hndr, hal, har, hdisj⟩ := nodup_node hnd
    rcases findA_node_cases h hnd with ⟨rfl, rfl⟩ | ⟨ha, hf, hm, hnr, hna⟩ | ⟨ha, hf, hm, hnl, hna⟩
    · rw [RBT.PTree.replaceA, if_pos rfl, rot1_inorder]
    · rw [RBT.PTree.replaceA, if_neg ha, RBT.PTree.inorder,
        replaceA_not_mem hnr, ihl hf hndl, RBT.PTree.inorder]
    · rw [RBT.PTree.replaceA, if_neg ha, RBT.PTree.inorder,
        replaceA_not_mem hnl, ihr hf hndr, RBT.PTree.inorder]

theorem rotate_left_exec {s : RBT.St} {p e : Nat} {op oe : RBT.Obj}
    (hp : s.heap p = some op) (hop : op.node.right = some e)
    (he : s.heap e = some oe) (hpe : p ≠ e)
    (hq : ∀ q, op.node.parent = some q → ∃ oq, s.heap q = some oq ∧ q ≠ p ∧ q ≠ e ∧
      ∀ tA, oe.node.left = some tA → q ≠ tA)
    (ht : ∀ tA, oe.node.left = some tA → ∃ ot, s.heap tA = some ot ∧ tA ≠ p ∧ tA ≠ e) :
    ∃ s', RBT.rotate s (some p) RBT.Dir.left = some s' ∧
      s'.nextAddr = s.nextAddr ∧
      (op.node.parent = none → s'.root = some e) ∧
      (op.node.parent ≠ none → s'.root = s.root) ∧
      s'.heap p = some ⟨⟨op.node.left, oe.node.left, some e, op.node.color, op.node.contents⟩, op.refcount⟩ ∧
      s'.heap e = some ⟨⟨some p, oe.node.right, op.node.parent, oe.node.color, oe.node.contents⟩, oe.refcount⟩ ∧
      (∀ tA ot, oe.node.left = some tA → s.heap tA = some ot →
        s'.heap tA = some ⟨⟨ot.node.left, ot.node.right, some p, ot.node.color, ot.node.contents⟩, ot.refcount⟩) ∧
      (∀ q oq, op.node.parent = some q → s.heap q = some oq →
        (oq.node.left = some p → s'.heap q = some ⟨⟨some e, oq.node.right, oq.node.parent, oq.node.color, oq.node.contents⟩, oq.refcount⟩) ∧
        (¬ oq.node.left = some p → s'.heap q = some ⟨⟨oq.node.left, some e, oq.node.parent, oq.node.color, oq.node.contents⟩, oq.refcount⟩)) ∧
      (∀ x, x ≠ p → x ≠ e → (∀ q, op.node.parent = some q → x ≠ q) →
        (∀ tA, oe.node.left = some tA → x ≠ tA) → s'.heap x = s.heap x) := by
  cases hpar : op.node.parent with
  | none =>
    cases hel : oe.node.left with
    | none =>
      simp only [RBT.rotate, RBT.readNode, RBT.modifyNode, RBT.setRoot, hp, he, hop, hpar, hel,
        Option.map_some', Option.some_bind, Option.bind_eq_bind,
        Function.update_same, Function.update_noteq hpe, Function.update_noteq (Ne.symm hpe)]
      refine ⟨_, rfl, rfl, ?_, ?_, ?_, ?_, ?_, ?_, ?_⟩
      · intro _; rfl
      · intro hc; exact absurd rfl hc
      · simp [Function.update_same, Function.update_noteq hpe, Function.update_noteq (Ne.symm hpe)]
      · simp [Function.update_same, Function.update_noteq hpe, Function.update_noteq (Ne.symm hpe)]
      · intro tA ot htA; exact Option.noConfusion htA
      · intro q oq hq2; exact Option.noConfusion hq2
      · intro x hxp hxe hxq hxt
        simp [Function.update_noteq hxp, Function.update_noteq hxe]
    | some tA =>
      obtain ⟨ot, hta, htp, hte⟩ := ht tA hel
      simp only [RBT.rotate, RBT.readNode, RBT.modifyNode, RBT.setRoot, hp, he, hop, hpar, hel, hta,
        Option.map_some', Option.some_bind, Option.bind_eq_bind,
        Function.update_same, Function.update_noteq hpe, Function.update_noteq (Ne.symm hpe),
        Function.update_noteq htp, Function.update_noteq hte,
        Function.update_noteq (Ne.symm htp), Function.update_noteq (Ne.symm hte)]
      refine ⟨_, rfl, rfl, ?_, ?_, ?_, ?_, ?_, ?_, ?_⟩
      · intro _; rfl
      · intro hc; exact absurd rfl hc
      · simp [Function.update_same, Function.update_noteq hpe, Function.update_noteq (Ne.symm hpe),
          Function.update_noteq (Ne.symm htp)]
      · simp [Function.update_same, Function.update_noteq hpe, Function.update_noteq (Ne.symm hpe),
          Function.update_noteq (Ne.symm hte)]
      · intro tB otB htB hoB
        obtain rfl := Option.some.inj htB
        obtain rfl := Option.some.inj (hta.symm.trans hoB)
        simp [Function.update_same, Function.update_noteq htp, Function.update_noteq hte]
      · intro q oq hq2; exact Option.noConfusion hq2
      · intro x hxp hxe hxq hxt
        have hxt2 : x ≠ tA := hxt tA rfl
        simp [Function.update_noteq hxp, Function.update_noteq hxe, Function.update_noteq hxt2]
  | some q =>
    obtain ⟨oq, hqa, hqp, hqe, hqt⟩ := hq q hpar
    have hqp' := Ne.symm hqp
    have hqe' := Ne.symm hqe
    cases hel : oe.node.left with
    | none =>
      by_cases hql : oq.node.left = some p
      · simp only [RBT.rotate, RBT.readNode, RBT.modifyNode, RBT.setRoot, hp, he, hop, hpar, hel,
          hqa, hql, Option.map_some', Option.some_bind, Option.bind_eq_bind, if_true,
          Function.update_same, Function.update_noteq hpe, Function.update_noteq (Ne.symm hpe),
          Function.update_noteq hqp', Function.update_noteq hqe',
          Function.update_noteq hqp, Function.update_noteq hqe]
        refine ⟨_, rfl, rfl, ?_, ?_, ?_, ?_, ?_, ?_, ?_⟩
        · intro hc; exact Option.noConfusion hc
        · intro _; rfl
        · simp [Function.update_same, Function.update_noteq hpe, Function.update_noteq (Ne.symm hpe),
            Function.update_noteq hqp']
        · simp [Function.update_same, Function.update_noteq hpe, Function.update_noteq (Ne.symm hpe),
            Function.update_noteq hqe']
        · intro tA ot htA; exact Option.noConfusion htA
        · intro q2 oq2 hq2 hoq2
          obtain rfl := Option.some.inj hq2
          obtain rfl := Option.some.inj (hqa.symm.trans hoq2)
          constructor
          · intro _
            simp [Function.update_same, Function.update_noteq hqp, Function.update_noteq hqe]
          · intro hc; exact absurd hql hc
        · intro x hxp hxe hxq hxt
          have hxq2 : x ≠ q := hxq q rfl
          simp [Function.update_noteq hxp, Function.update_noteq hxe, Function.update_noteq hxq2]
      · simp only [RBT.rotate, RBT.readNode, RBT.modifyNode, RBT.setRoot, hp, he, hop, hpar, hel,
          hqa, hql, Option.map_some', Option.some_bind, Option.bind_eq_bind, if_false,
          Function.update_same, Function.update_noteq hpe, Function.update_noteq (Ne.symm hpe),
          Function.update_noteq hqp', Function.update_noteq hqe',
          Function.update_noteq hqp, Function.update_noteq hqe]
        refine ⟨_, rfl, rfl, ?_, ?_, ?_, ?_, ?_, ?_, ?_⟩
        · intro hc; exact Option.noConfusion hc
        · intro _; rfl
        · simp [Function.update_same, Function.update_noteq hpe, Function.update_noteq (Ne.symm hpe),
            Function.update_noteq hqp']
        · simp [Function.update_same, Function.update_noteq hpe, Function.update_noteq (Ne.symm hpe),
            Function.update_noteq hqe']
        · intro tA ot htA; exact Option.noConfusion htA
        · intro q2 oq2 hq2 hoq2
          obtain rfl := Option.some.inj hq2
          obtain rfl := Option.some.inj (hqa.symm.trans hoq2)
          constructor
          · intro hc; exact absurd hc hql
          · intro _
            simp [Function.update_same, Function.update_noteq hqp, Function.update_noteq hqe]
        · intro x hxp hxe hxq hxt
          have hxq2 : x ≠ q := hxq q rfl
          simp [Function.update_noteq hxp, Function.update_noteq hxe, Function.update_noteq hxq2]
    | some tA =>
      obtain ⟨ot, hta, htp, hte⟩ := ht tA hel
      have htq : q ≠ tA := hqt tA hel
      have htq' := Ne.symm htq
      by_cases hql : oq.node.left = some p
      · simp only [RBT.rotate, RBT.readNode, RBT.modifyNode, RBT.setRoot, hp, he, hop, hpar, hel,
          hqa, hql, hta, Option.map_some', Option.some_bind, Option.bind_eq_bind, if_true,
          Function.update_same, Function.update_noteq hpe, Function.update_noteq (Ne.symm hpe),
          Function.update_noteq hqp', Function.update_noteq hqe', Function.update_noteq htq',
          Function.update_noteq hqp, Function.update_noteq hqe, Function.update_noteq htq,
          Function.update_noteq htp, Function.update_noteq hte,
          Function.update_noteq (Ne.symm htp), Function.update_noteq (Ne.symm hte)]
        refine ⟨_, rfl, rfl, ?_, ?_, ?_, ?_, ?_, ?_, ?_⟩
        · intro hc; exact Option.noConfusion hc
        · intro _; rfl
        · simp [Function.update_same, Function.update_noteq hpe, Function.update_noteq (Ne.symm hpe),
            Function.update_noteq hqp', Function.update_noteq (Ne.symm htp)]
        · simp [Function.update_same, Function.update_noteq hpe, Function.update_noteq (Ne.symm hpe),
            Function.update_noteq hqe', Function.update_noteq (Ne.symm hte)]
        · intro tB otB htB hoB
          obtain rfl := Option.some.inj htB
          obtain rfl := Option.some.inj (hta.symm.trans hoB)
          simp [Function.update_same, Function.update_noteq htp, Function.update_noteq hte,
            Function.update_noteq htq]
        · intro q2 oq2 hq2 hoq2
          obtain rfl := Option.some.inj hq2
          obtain rfl := Option.some.inj (hqa.symm.trans hoq2)
          constructor
          · intro _
            simp [Function.update_same, Function.update_noteq hqp, Function.update_noteq hqe,
              Function.update_noteq htq, Function.update_noteq htq']
          · intro hc; exact absurd hql hc
        · intro x hxp hxe hxq hxt
          have hxq2 : x ≠ q := hxq q rfl
          have hxt2 : x ≠ tA := hxt tA rfl
          simp [Function.update_noteq hxp, Function.update_noteq hxe, Function.update_noteq hxq2,
            Function.update_noteq hxt2]
      · simp only [RBT.rotate, RBT.readNode, RBT.modifyNode, RBT.setRoot, hp, he, hop, hpar, hel,
          hqa, hql, hta, Option.map_some', Option.some_bind, Option.bind_eq_bind, if_false,
          Function.update_same, Function.update_noteq hpe, Function.update_noteq (Ne.symm hpe),
          Function.update_noteq hqp', Function.update_noteq hqe', Function.update_noteq htq',
          Function.update_noteq hqp, Function.update_noteq hqe, Function.update_noteq htq,
          Function.update_noteq htp, Function.update_noteq hte,
          Function.update_noteq (Ne.symm htp), Function.update_noteq (Ne.symm hte)]
        refine ⟨_, rfl, rfl, ?_, ?_, ?_, ?_, ?_, ?_, ?_⟩
        · intro hc; exact Option.noConfusion hc
        · intro _; rfl
        · simp [Function.update_same, Function.update_noteq hpe, Function.update_noteq (Ne.symm hpe),
            Function.update_noteq hqp', Function.update_noteq (Ne.symm htp)]
        · simp [Function.update_same, Function.update_noteq hpe, Function.update_noteq (Ne.symm hpe),
            Function.update_noteq hqe', Function.update_noteq (Ne.symm hte)]
        · intro tB otB htB hoB
          obtain rfl := Option.some.inj htB
          obtain rfl := Option.some.inj (hta.symm.trans hoB)
          simp [Function.update_same, Function.update_noteq htp, Function.update_noteq hte,
            Function.update_noteq htq]
        · intro q2 oq2 hq2 hoq2
          obtain rfl := Option.some.inj hq2
          obtain rfl := Option.some.inj (hqa.symm.trans hoq2)
          constructor
          · intro hc; exact absurd hc hql
          · intro _
            simp [Function.update_same, Function.update_noteq hqp, Function.update_noteq hqe,
              Function.update_noteq htq, Function.update_noteq htq']
        · intro x hxp hxe hxq hxt
          have hxq2 : x ≠ q := hxq q rfl
          have hxt2 : x ≠ tA := hxt tA rfl
          simp [Function.update_noteq hxp, Function.update_noteq hxe, Function.update_noteq hxq2,
            Function.update_noteq hxt2]

theorem rotate_right_exec {s : RBT.St} {p e : Nat} {op oe : RBT.Obj}
    (hp : s.heap p = some op) (hop : op.node.left = some e)
    (he : s.heap e = some oe) (hpe : p ≠ e)
    (hq : ∀ q, op.node.parent = some q → ∃ oq, s.heap q = some oq ∧ q ≠ p ∧ q ≠ e ∧
      ∀ tA, oe.node.right = some tA → q ≠ tA)
    (ht : ∀ tA, oe.node.right = some tA → ∃ ot, s.heap tA = some ot ∧ tA ≠ p ∧ tA ≠ e) :
    ∃ s', RBT.rotate s (some p) RBT.Dir.right = some s' ∧
      s'.nextAddr = s.nextAddr ∧
      (op.node.parent = none → s'.root = some e) ∧
      (op.node.parent ≠ none → s'.root = s.root) ∧
      s'.heap p = some ⟨⟨oe.node.right, op.node.right, some e, op.node.color, op.node.contents⟩, op.refcount⟩ ∧
      s'.heap e = some ⟨⟨oe.node.left, some p, op.node.parent, oe.node.color, oe.node.contents⟩, oe.refcount⟩ ∧
      (∀ tA ot, oe.node.right = some tA → s.heap tA = some ot →
        s'.heap tA = some ⟨⟨ot.node.left, ot.node.right, some p, ot.node.color, ot.node.contents⟩, ot.refcount⟩) ∧
      (∀ q oq, op.node.parent = some q → s.heap q = some oq →
        (oq.node.left = some p → s'.heap q = some ⟨⟨some e, oq.node.right, oq.node.parent, oq.node.color, oq.node.contents⟩, oq.refcount⟩) ∧
        (¬ oq.node.left = some p → s'.heap q = some ⟨⟨oq.node.left, some e, oq.node.parent, oq.node.color, oq.node.contents⟩, oq.refcount⟩)) ∧
      (∀ x, x ≠ p → x ≠ e → (∀ q, op.node.parent = some q → x ≠ q) →
        (∀ tA, oe.node.right = some tA → x ≠ tA) → s'.heap x = s.heap x) := by
  cases hpar : op.node.parent with
  | none =>
    cases hel : oe.node.right with
    | none =>
      simp only [RBT.rotate, RBT.readNode, RBT.modifyNode, RBT.setRoot, hp, he, hop, hpar, hel,
        Option.map_some', Option.some_bind, Option.bind_eq_bind,
        Function.update_same, Function.update_noteq hpe, Function.update_noteq (Ne.symm hpe)]
      refine ⟨_, rfl, rfl, ?_, ?_, ?_, ?_, ?_, ?_, ?_⟩
      · intro _; rfl
      · intro hc; exact absurd rfl hc
      · simp [Function.update_same, Function.update_noteq hpe, Function.update_noteq (Ne.symm hpe)]
      · simp [Function.update_same, Function.update_noteq hpe, Function.update_noteq (Ne.symm hpe)]
      · intro tA ot htA; exact Option.noConfusion htA
      · intro q oq hq2; exact Option.noConfusion hq2
      · intro x hxp hxe hxq hxt
        simp [Function.update_noteq hxp, Function.update_noteq hxe]
    | some tA =>
      obtain ⟨ot, hta, htp, hte⟩ := ht tA hel
      simp only [RBT.rotate, RBT.readNode, RBT.modifyNode, RBT.setRoot, hp, he, hop, hpar, hel, hta,
        Option.map_some', Option.some_bind, Option.bind_eq_bind,
        Function.update_same, Function.update_noteq hpe, Function.update_noteq (Ne.symm hpe),
        Function.update_noteq htp, Function.update_noteq hte,
        Function.update_noteq (Ne.symm htp), Function.update_noteq (Ne.symm hte)]
      refine ⟨_, rfl, rfl, ?_, ?_, ?_, ?_, ?_, ?_, ?_⟩
      · intro _; rfl
      · intro hc; exact absurd rfl hc
      · simp [Function.update_same, Function.update_noteq hpe, Function.update_noteq (Ne.symm hpe),
          Function.update_noteq (Ne.symm htp)]
      · simp [Function.update_same, Function.update_noteq hpe, Function.update_noteq (Ne.symm hpe),
          Function.update_noteq (Ne.symm hte)]
      · intro tB otB htB hoB
        obtain rfl := Option.some.inj htB
        obtain rfl := Option.some.inj (hta.symm.trans hoB)
        simp [Function.update_same, Function.update_noteq htp, Function.update_noteq hte]
      · intro q oq hq2; exact Option.noConfusion hq2
      · intro x hxp hxe hxq hxt
        have hxt2 : x ≠ tA := hxt tA rfl
        simp [Function.update_noteq hxp, Function.update_noteq hxe, Function.update_noteq hxt2]
  | some q =>
    obtain ⟨oq, hqa, hqp, hqe, hqt⟩ := hq q hpar
    have hqp' := Ne.symm hqp
    have hqe' := Ne.symm hqe
    cases hel : oe.node.right with
    | none =>
      by_cases hql : oq.node.left = some p
      · simp only [RBT.rotate, RBT.readNode, RBT.modifyNode, RBT.setRoot, hp, he, hop, hpar, hel,
          hqa, hql, Option.map_some', Option.some_bind, Option.bind_eq_bind, if_true,
          Function.update_same, Function.update_noteq hpe, Function.update_noteq (Ne.symm hpe),
          Function.update_noteq hqp', Function.update_noteq hqe',
          Function.update_noteq hqp, Function.update_noteq hqe]
        refine ⟨_, rfl, rfl, ?_, ?_, ?_, ?_, ?_, ?_, ?_⟩
        · intro hc; exact Option.noConfusion hc
        · intro _; rfl
        · simp [Function.update_same, Function.update_noteq hpe, Function.update_noteq (Ne.symm hpe),
            Function.update_noteq hqp']
        · simp [Function.update_same, Function.update_noteq hpe, Function.update_noteq (Ne.symm hpe),
            Function.update_noteq hqe']
        · intro tA ot htA; exact Option.noConfusion htA
        · intro q2 oq2 hq2 hoq2
          obtain rfl := Option.some.inj hq2
          obtain rfl := Option.some.inj (hqa.symm.trans hoq2)
          constructor
          · intro _
            simp [Function.update_same, Function.update_noteq hqp, Function.update_noteq hqe]
          · intro hc; exact absurd hql hc
        · intro x hxp hxe hxq hxt
          have hxq2 : x ≠ q := hxq q rfl
          simp [Function.update_noteq hxp, Function.update_noteq hxe, Function.update_noteq hxq2]
      · simp only [RBT.rotate, RBT.readNode, RBT.modifyNode, RBT.setRoot, hp, he, hop, hpar, hel,
          hqa, hql, Option.map_some', Option.some_bind, Option.bind_eq_bind, if_false,
          Function.update_same, Function.update_noteq hpe, Function.update_noteq (Ne.symm hpe),
          Function.update_noteq hqp', Function.update_noteq hqe',
          Function.update_noteq hqp, Function.update_noteq hqe]
        refine ⟨_, rfl, rfl, ?_, ?_, ?_, ?_, ?_, ?_, ?_⟩
        · intro hc; exact Option.noConfusion hc
        · intro _; rfl
        · simp [Function.update_same, Function.update_noteq hpe, Function.update_noteq (Ne.symm hpe),
            Function.update_noteq hqp']
        · simp [Function.update_same, Function.update_noteq hpe, Function.update_noteq (Ne.symm hpe),
            Function.update_noteq hqe']
        · intro tA ot htA; exact Option.noConfusion htA
        · intro q2 oq2 hq2 hoq2
          obtain rfl := Option.some.inj hq2
          obtain rfl := Option.some.inj (hqa.symm.trans hoq2)
          constructor
          · intro hc; exact absurd hc hql
          · intro _
            simp [Function.update_same, Function.update_noteq hqp, Function.update_noteq hqe]
        · intro x hxp hxe hxq hxt
          have hxq2 : x ≠ q := hxq q rfl
          simp [Function.update_noteq hxp, Function.update_noteq hxe, Function.update_noteq hxq2]
    | some tA =>
      obtain ⟨ot, hta, htp, hte⟩ := ht tA hel
      have htq : q ≠ tA := hqt tA hel
      have htq' := Ne.symm htq
      by_cases hql : oq.node.left = some p
      · simp only [RBT.rotate, RBT.readNode, RBT.modifyNode, RBT.setRoot, hp, he, hop, hpar, hel,
          hqa, hql, hta, Option.map_some', Option.some_bind, Option.bind_eq_bind, if_true,
          Function.update_same, Function.update_noteq hpe, Function.update_noteq (Ne.symm hpe),
          Function.update_noteq hqp', Function.update_noteq hqe', Function.update_noteq htq',
          Function.update_noteq hqp, Function.update_noteq hqe, Function.update_noteq htq,
          Function.update_noteq htp, Function.update_noteq hte,
          Function.update_noteq (Ne.symm htp), Function.update_noteq (Ne.symm hte)]
        refine ⟨_, rfl, rfl, ?_, ?_, ?_, ?_, ?_, ?_, ?_⟩
        · intro hc; exact Option.noConfusion hc
        · intro _; rfl
        · simp [Function.update_same, Function.update_noteq hpe, Function.update_noteq (Ne.symm hpe),
            Function.update_noteq hqp', Function.update_noteq (Ne.symm htp)]
        · simp [Function.update_same, Function.update_noteq hpe, Function.update_noteq (Ne.symm hpe),
            Function.update_noteq hqe', Function.update_noteq (Ne.symm hte)]
        · intro tB otB htB hoB
          obtain rfl := Option.some.inj htB
          obtain rfl := Option.some.inj (hta.symm.trans hoB)
          simp [Function.update_same, Function.update_noteq htp, Function.update_noteq hte,
            Function.update_noteq htq]
        · intro q2 oq2 hq2 hoq2
          obtain rfl := Option.some.inj hq2
          obtain rfl := Option.some.inj (hqa.symm.trans hoq2)
          constructor
          · intro _
            simp [Function.update_same, Function.update_noteq hqp, Function.update_noteq hqe,
              Function.update_noteq htq, Function.update_noteq htq']
          · intro hc; exact absurd hql hc
        · intro x hxp hxe hxq hxt
          have hxq2 : x ≠ q := hxq q rfl
          have hxt2 : x ≠ tA := hxt tA rfl
          simp [Function.update_noteq hxp, Function.update_noteq hxe, Function.update_noteq hxq2,
            Function.update_noteq hxt2]
      · simp only [RBT.rotate, RBT.readNode, RBT.modifyNode, RBT.setRoot, hp, he, hop, hpar, hel,
          hqa, hql, hta, Option.map_some', Option.some_bind, Option.bind_eq_bind, if_false,
          Function.update_same, Function.update_noteq hpe, Function.update_noteq (Ne.symm hpe),
          Function.update_noteq hqp', Function.update_noteq hqe', Function.update_noteq htq',
          Function.update_noteq hqp, Function.update_noteq hqe, Function.update_noteq htq,
          Function.update_noteq htp, Function.update_noteq hte,
          Function.update_noteq (Ne.symm htp), Function.update_noteq (Ne.symm hte)]
        refine ⟨_, rfl, rfl, ?_, ?_, ?_, ?_, ?_, ?_, ?_⟩
        · intro hc; exact Option.noConfusion hc
        · intro _; rfl
        · simp [Function.update_same, Function.update_noteq hpe, Function.update_noteq (Ne.symm hpe),
            Function.update_noteq hqp', Function.update_noteq (Ne.symm htp)]
        · simp [Function.update_same, Function.update_noteq hpe, Function.update_noteq (Ne.symm hpe),
            Function.update_noteq hqe', Function.update_noteq (Ne.symm hte)]
        · intro tB otB htB hoB
          obtain rfl := Option.some.inj htB
          obtain rfl := Option.some.inj (hta.symm.trans hoB)
          simp [Function.update_same, Function.update_noteq htp, Function.update_noteq hte,
            Function.update_noteq htq]
        · intro q2 oq2 hq2 hoq2
          obtain rfl := Option.some.inj hq2
          obtain rfl := Option.some.inj (hqa.symm.trans hoq2)
          constructor
          · intro hc; exact absurd hc hql
          · intro _
            simp [Function.update_same, Function.update_noteq hqp, Function.update_noteq hqe,
              Function.update_noteq htq, Function.update_noteq htq']
        · intro x hxp hxe hxq hxt
          have hxq2 : x ≠ q := hxq q rfl
          have hxt2 : x ≠ tA := hxt tA rfl
          simp [Function.update_noteq hxp, Function.update_noteq hxe, Function.update_noteq hxq2,
            Function.update_noteq hxt2]

theorem rootA_mem {t : RBT.PTree} {x : Nat} (h : t.rootA = some x) : x ∈ t.addrs := by
  cases t with
  | leaf => cases h
  | node l a c k r =>
    obtain rfl := Option.some.inj h
    simp [RBT.PTree.addrs]

theorem mem_record {h : Nat → Option RBT.Obj} {par : Option Nat} {u : RBT.PTree} {x : Nat}
    (hrep : RBT.reprOk h par u = true) (hx : x ∈ u.addrs) : ∃ ox, h x = some ox := by
  induction u generalizing par with
  | leaf => simp [RBT.PTree.addrs] at hx
  | node l a c k r ihl ihr =>
    obtain ⟨o, ho, hrec, hl, hr⟩ := reprOk_node.mp hrep
    rw [RBT.PTree.addrs] at hx
    simp only [List.mem_append, List.mem_cons] at hx
    rcases hx with hx | hx | hx
    · exact ihl hl hx
    · exact hx ▸ ⟨o, ho⟩
    · exact ihr hr hx

theorem slots_no_p {h : Nat → Option RBT.Obj} {par : Option Nat} {u : RBT.PTree} {p : Nat}
    (hrep : RBT.reprOk h par u = true) (hp : p ∉ u.addrs) :
    ∀ x ox, x ∈ u.addrs → h x = some ox →
      ¬ ox.node.left = some p ∧ ¬ ox.node.right = some p := by
  induction u generalizing par with
  | leaf => intro x ox hx; simp [RBT.PTree.addrs] at hx
  | node l a c k r ihl ihr =>
    obtain ⟨o, ho, hrec, hl, hr⟩ := reprOk_node.mp hrep
    have hpl : p ∉ l.addrs := fun hc => hp (by simp [RBT.PTree.addrs, hc])
    have hpr : p ∉ r.addrs := fun hc => hp (by simp [RBT.PTree.addrs, hc])
    intro x ox hx hox
    rw [RBT.PTree.addrs] at hx
    simp only [List.mem_append, List.mem_cons] at hx
    rcases hx with hx | hx | hx
    · exact ihl hl hpl x ox hx hox
    · subst hx
      obtain rfl := Option.some.inj (ho.symm.trans hox)
      rw [hrec]
      exact ⟨fun hc => hpl (rootA_mem hc), fun hc => hpr (rootA_mem hc)⟩
    · exact ihr hr hpr x ox hx hox

theorem findA_rootA {t : RBT.PTree} {p : Nat} (h : t.rootA = some p) :
    t.findA p = some t := by
  cases t with
  | leaf => cases h
  | node l a c k r =>
    obtain rfl := Option.some.inj h
    rw [RBT.PTree.findA, if_pos rfl]

theorem findA_sub_sublist {t sub : RBT.PTree} {p : Nat} (h : t.findA p = some sub) :
    sub.addrs.Sublist t.addrs := by
  induction t with
  | leaf => simp [RBT.PTree.findA] at h
  | node l a c k r ihl ihr =>
    rw [RBT.PTree.findA] at h
    by_cases ha : a = p
    · rw [if_pos ha] at h
      obtain rfl := Option.some.inj h
      exact List.Sublist.refl _
    · rw [if_neg ha] at h
      cases hl : l.findA p with
      | some subl =>
        rw [hl] at h
        simp only [Option.orElse] at h
        obtain rfl := Option.some.inj h
        rw [RBT.PTree.addrs]
        exact (ihl hl).trans (List.sublist_append_left _ _)
      | none =>
        rw [hl] at h
        simp only [Option.orElse] at h
        rw [RBT.PTree.addrs]
        exact (ihr h).trans ((List.sublist_cons_self a _).trans
          (List.sublist_append_right _ _))

theorem findA_position {h : Nat → Option RBT.Obj} {par : Option Nat} {t sub : RBT.PTree} {p : Nat}
    (hrep : RBT.reprOk h par t = true) (hnd : t.addrs.Nodup) (hf : t.findA p = some sub) :
    (t.rootA = some p ∧ sub = t ∧
      ∀ x ox, x ∈ t.addrs → h x = some ox →
        ¬ ox.node.left = some p ∧ ¬ ox.node.right = some p) ∨
    (¬ t.rootA = some p ∧ ∃ q, q ∈ t.addrs ∧ q ∉ sub.addrs ∧
      RBT.reprOk h (some q) sub = true ∧
      ∃ oq, h q = some oq ∧
        ((oq.node.left = some p ∧ ¬ oq.node.right = some p) ∨
         (oq.node.right = some p ∧ ¬ oq.node.left = some p)) ∧
        ∀ x ox, x ∈ t.addrs → x ≠ q → h x = some ox →
          ¬ ox.node.left = some p ∧ ¬ ox.node.right = some p) := by
  induction t generalizing par with
  | leaf => simp [RBT.PTree.findA] at hf
  | node l a c k r ihl ihr =>
    obtain ⟨o, ho, hrec, hl, hr⟩ := reprOk_node.mp hrep
    obtain ⟨hndl, hndr, hal, har, hdisj⟩ := nodup_node hnd
    rcases findA_node_cases hf hnd with ⟨rfl, rfl⟩ | ⟨ha, hfl, hm, hnr, hna⟩ | ⟨ha, hfr, hm, hnl, hna⟩
    · left
      refine ⟨rfl, rfl, ?_⟩
      intro x ox hx hox
      rw [RBT.PTree.addrs] at hx
      simp only [List.mem_append, List.mem_cons] at hx
      rcases hx with hx | hx | hx
      · exact slots_no_p hl hal x ox hx hox
      · subst hx
        obtain rfl := Option.some.inj (ho.symm.trans hox)
        rw [hrec]
        exact ⟨fun hc => hal (rootA_mem hc), fun hc => har (rootA_mem hc)⟩
      · exact slots_no_p hr har x ox hx hox
    · right
      have hmr : p ∉ r.addrs := hnr
      refine ⟨fun hc => hna (Option.some.inj hc).symm, ?_⟩
      rcases ihl hl hndl hfl with ⟨hlr, rfl, huniq⟩ | ⟨hlr, q, hqm, hqs, hqrep, oq, hoq, hxor, huniq⟩
      · refine ⟨a, by simp [RBT.PTree.addrs], fun hc => hal hc, hl, o, ho, ?_, ?_⟩
        · left
          rw [hrec]
          exact ⟨hlr, fun hc => hnr (rootA_mem hc)⟩
        · intro x ox hx hxa hox
          rw [RBT.PTree.addrs] at hx
          simp only [List.mem_append, List.mem_cons] at hx
          rcases hx with hx | hx | hx
          · exact huniq x ox hx hox
          · exact absurd hx hxa
          · exact slots_no_p hr hmr x ox hx hox
      · refine ⟨q, by simp [RBT.PTree.addrs, hqm], hqs, hqrep, oq, hoq, hxor, ?_⟩
        intro x ox hx hxq hox
        rw [RBT.PTree.addrs] at hx
        simp only [List.mem_append, List.mem_cons] at hx
        rcases hx with hx | hx | hx
        · exact huniq x ox hx hxq hox
        · subst hx
          obtain rfl := Option.some.inj (ho.symm.trans hox)
          rw [hrec]
          exact ⟨fun hc => (hlr hc).elim, fun hc => hnr (rootA_mem hc)⟩
        · exact slots_no_p hr hmr x ox hx hox
    · right
      have hml : p ∉ l.addrs := hnl
      refine ⟨fun hc => hna (Option.some.inj hc).symm, ?_⟩
      rcases ihr hr hndr hfr with ⟨hrr, rfl, huniq⟩ | ⟨hrr, q, hqm, hqs, hqrep, oq, hoq, hxor, huniq⟩
      · refine ⟨a, by simp [RBT.PTree.addrs], fun hc => har hc, hr, o, ho, ?_, ?_⟩
        · right
          rw [hrec]
          exact ⟨hrr, fun hc => hnl (rootA_mem hc)⟩
        · intro x ox hx hxa hox
          rw [RBT.PTree.addrs] at hx
          simp only [List.mem_append, List.mem_cons] at hx
          rcases hx with hx | hx | hx
          · exact slots_no_p hl hml x ox hx hox
          · exact absurd hx hxa
          · exact huniq x ox hx hox
      · refine ⟨q, by simp [RBT.PTree.addrs, hqm], hqs, hqrep, oq, hoq, hxor, ?_⟩
        intro x ox hx hxq hox
        rw [RBT.PTree.addrs] at hx
        simp only [List.mem_append, List.mem_cons] at hx
        rcases hx with hx | hx | hx
        · exact slots_no_p hl hml x ox hx hox
        · subst hx
          obtain rfl := Option.some.inj (ho.symm.trans hox)
          rw [hrec]
          exact ⟨fun hc => hnl (rootA_mem hc), fun hc => (hrr hc).elim⟩
        · exact huniq x ox hx hxq hox

theorem replaceA_root_rootA {t : RBT.PTree} {p : Nat} {x : RBT.PTree}
    (h : t.rootA = some p) : (t.replaceA p x).rootA = x.rootA := by
  cases t with
  | leaf => cases h
  | node l a c k r =>
    obtain rfl := Option.some.inj h
    rw [RBT.PTree.replaceA, if_pos rfl]

theorem replace_reprOk {h h' : Nat → Option RBT.Obj} {p e : Nat} {sub newsub : RBT.PTree}
    {T : List Nat}
    (hnew : newsub.rootA = some e)
    (H1 : ∀ par2, RBT.reprOk h par2 sub = true → RBT.reprOk h' par2 newsub = true)
    (H2 : ∀ x ox, x ∈ T → x ∉ sub.addrs → h x = some ox →
      (¬ ox.node.left = some p → ¬ ox.node.right = some p → h' x = h x) ∧
      (ox.node.left = some p →
        h' x = some ⟨⟨some e, ox.node.right, ox.node.parent, ox.node.color, ox.node.contents⟩, ox.refcount⟩) ∧
      (¬ ox.node.left = some p → ox.node.right = some p →
        h' x = some ⟨⟨ox.node.left, some e, ox.node.parent, ox.node.color, ox.node.contents⟩, ox.refcount⟩)) :
    ∀ {u : RBT.PTree} {par2 : Option Nat},
      RBT.reprOk h par2 u = true → u.addrs.Nodup → (∀ x ∈ u.addrs, x ∈ T) →
      u.findA p = some sub →
      RBT.reprOk h' par2 (u.replaceA p newsub) = true := by
  intro u
  induction u with
  | leaf => intro par2 _ _ _ hf; simp [RBT.PTree.findA] at hf
  | node l a c k r ihl ihr =>
    intro par2 hrep hnd hT hf
    obtain ⟨o, ho, hrec, hl, hr⟩ := reprOk_node.mp hrep
    obtain ⟨hndl, hndr, hal, har, hdisj⟩ := nodup_node hnd
    have haT : a ∈ T := hT a (by simp [RBT.PTree.addrs])
    have hlT : ∀ x ∈ l.addrs, x ∈ T := fun x hx => hT x (by simp [RBT.PTree.addrs, hx])
    have hrT : ∀ x ∈ r.addrs, x ∈ T := fun x hx => hT x (by simp [RBT.PTree.addrs, hx])
    rcases findA_node_cases hf hnd with ⟨rfl, rfl⟩ | ⟨ha, hfl, hm, hnr, hna⟩ | ⟨ha, hfr, hm, hnl, hna⟩
    · rw [RBT.PTree.replaceA, if_pos rfl]
      exact H1 par2 hrep
    · rw [RBT.PTree.replaceA, if_neg ha, replaceA_not_mem hnr]
      have hsubl := findA_sub_sublist hfl
      have hanotsub : a ∉ sub.addrs := fun hc => hal (hsubl.mem hc)
      have hih := ihl hl hndl hlT hfl
      have hfr2 : RBT.reprOk h' (some a) r = true := by
        have hag : ∀ x ∈ r.addrs, h' x = h x := by
          intro x hx
          obtain ⟨ox, hox⟩ := mem_record hr hx
          obtain ⟨hs1, hs2⟩ := slots_no_p hr hnr x ox hx hox
          rw [hox]
          exact (((H2 x ox (hrT x hx) (fun hc => hdisj x (hsubl.mem hc) hx) hox).1 hs1 hs2)).trans hox
        rw [reprOk_congr hag]
        exact hr
      by_cases hlr : l.rootA = some p
      · have holeft : o.node.left = some p := by rw [hrec]; exact hlr
        obtain ⟨-, hupd, -⟩ := H2 a o haT hanotsub ho
        have ha2 := hupd holeft
        have hlroot : (l.replaceA p newsub).rootA = some e := by
          rw [replaceA_root_rootA hlr, hnew]
        refine reprOk_node.mpr ⟨_, ha2, ?_, hih, hfr2⟩
        rw [hrec, hlroot]
      · have holeft : ¬ o.node.left = some p := by rw [hrec]; exact hlr
        have horight : ¬ o.node.right = some p := by
          rw [hrec]; exact fun hc => hnr (rootA_mem hc)
        obtain ⟨hsame, -, -⟩ := H2 a o haT hanotsub ho
        have ha2 : h' a = some o := (hsame holeft horight).trans ho
        refine reprOk_node.mpr ⟨o, ha2, ?_, hih, hfr2⟩
        rw [hrec, rootA_replaceA (fun hc => hlr hc)]
    · rw [RBT.PTree.replaceA, if_neg ha, replaceA_not_mem hnl]
      have hsubr := findA_sub_sublist hfr
      have hanotsub : a ∉ sub.addrs := fun hc => har (hsubr.mem hc)
      have hih := ihr hr hndr hrT hfr
      have hfl2 : RBT.reprOk h' (some a) l = true := by
        have hag : ∀ x ∈ l.addrs, h' x = h x := by
          intro x hx
          obtain ⟨ox, hox⟩ := mem_record hl hx
          obtain ⟨hs1, hs2⟩ := slots_no_p hl hnl x ox hx hox
          rw [hox]
          exact (((H2 x ox (hlT x hx) (fun hc => hdisj x hx (hsubr.mem hc)) hox).1 hs1 hs2)).trans hox
        rw [reprOk_congr hag]
        exact hl
      by_cases hrr : r.rootA = some p
      · have horight : o.node.right = some p := by rw [hrec]; exact hrr
        have holeft : ¬ o.node.left = some p := by
          rw [hrec]; exact fun hc => hnl (rootA_mem hc)
        obtain ⟨-, -, hupd⟩ := H2 a o haT hanotsub ho
        have ha2 := hupd holeft horight
        have hrroot : (r.replaceA p newsub).rootA = some e := by
          rw [replaceA_root_rootA hrr, hnew]
        refine reprOk_node.mpr ⟨_, ha2, ?_, hfl2, hih⟩
        rw [hrec, hrroot]
      · have horight : ¬ o.node.right = some p := by rw [hrec]; exact hrr
        have holeft : ¬ o.node.left = some p := by
          rw [hrec]; exact fun hc => hnl (rootA_mem hc)
        obtain ⟨hsame, -, -⟩ := H2 a o haT hanotsub ho
        have ha2 : h' a = some o := (hsame holeft horight).trans ho
        refine reprOk_node.mpr ⟨o, ha2, ?_, hfl2, hih⟩
        rw [hrec, rootA_replaceA (fun hc => hrr hc)]

theorem rot1_left_repr {h h' : Nat → Option RBT.Obj} {p e : Nat} {op oe : RBT.Obj}
    {sl srl srr : RBT.PTree} {sc ec : RBT.Color} {sk ek : Int}
    (hnd : (RBT.PTree.node sl p sc sk (RBT.PTree.node srl e ec ek srr)).addrs.Nodup)
    (hp : h p = some op) (he : h e = some oe)
    (Hp : h' p = some ⟨⟨op.node.left, oe.node.left, some e, op.node.color, op.node.contents⟩, op.refcount⟩)
    (He : h' e = some ⟨⟨some p, oe.node.right, op.node.parent, oe.node.color, oe.node.contents⟩, oe.refcount⟩)
    (Ht : ∀ tA ot, oe.node.left = some tA → h tA = some ot →
      h' tA = some ⟨⟨ot.node.left, ot.node.right, some p, ot.node.color, ot.node.contents⟩, ot.refcount⟩)
    (Hfr : ∀ x, ¬ x = p → ¬ x = e → (∀ tA, oe.node.left = some tA → ¬ x = tA) →
      x ∈ (RBT.PTree.node sl p sc sk (RBT.PTree.node srl e ec ek srr)).addrs → h' x = h x)
    {par2 : Option Nat}
    (hrep : RBT.reprOk h par2 (RBT.PTree.node sl p sc sk (RBT.PTree.node srl e ec ek srr)) = true) :
    RBT.reprOk h' par2
      (RBT.rot1 RBT.Dir.left (RBT.PTree.node sl p sc sk (RBT.PTree.node srl e ec ek srr))) = true := by
  obtain ⟨o1, ho1, hrec1, hsl, hsr⟩ := reprOk_node.mp hrep
  obtain rfl := Option.some.inj (hp.symm.trans ho1)
  obtain ⟨o2, ho2, hrec2, hsrl, hsrr⟩ := reprOk_node.mp hsr
  obtain rfl := Option.some.inj (he.symm.trans ho2)
  obtain ⟨hndsl, hndin, hpsl, hpin, hdisj1⟩ := nodup_node hnd
  obtain ⟨hndsrl, hndsrr, hesrl, hesrr, hdisj2⟩ := nodup_node hndin
  have hoer : oe.node.left = srl.rootA := by rw [hrec2]
  have hslx : ∀ x ∈ sl.addrs, h' x = h x := by
    intro x hx
    refine Hfr x (fun hc => hpsl (hc ▸ hx)) ?_ ?_ ?_
    · intro hc
      exact hdisj1 x hx (by rw [hc, RBT.PTree.addrs]; exact List.mem_append_right _ (List.mem_cons_self _ _))
    · intro tB htB hc
      rw [hoer] at htB
      have htBm : tB ∈ srl.addrs := rootA_mem htB
      exact hdisj1 x hx (by rw [hc, RBT.PTree.addrs]; exact List.mem_append_left _ htBm)
    · rw [RBT.PTree.addrs]
      exact List.mem_append_left _ hx
  have hsrrx : ∀ x ∈ srr.addrs, h' x = h x := by
    intro x hx
    have hxin : x ∈ (RBT.PTree.node srl e ec ek srr).addrs := by
      rw [RBT.PTree.addrs]
      exact List.mem_append_right _ (List.mem_cons_of_mem _ hx)
    refine Hfr x ?_ (fun hc => hesrr (hc ▸ hx)) ?_ ?_
    · intro hc
      exact hpin (hc ▸ hxin)
    · intro tB htB hc
      rw [hoer] at htB
      exact hdisj2 tB (rootA_mem htB) (hc ▸ hx)
    · rw [RBT.PTree.addrs]
      exact List.mem_append_right _ (List.mem_cons_of_mem _ hxin)
  have hsrlrep : RBT.reprOk h' (some p) srl = true := by
    cases srl with
    | leaf => rfl
    | node m tA tc tk m2 =>
      obtain ⟨ot, hot, hrect, hm, hm2⟩ := reprOk_node.mp hsrl
      obtain ⟨hndm, hndm2, htm, htm2, hdisjm⟩ := nodup_node hndsrl
      have htAeq : oe.node.left = some tA := by rw [hoer]; rfl
      have hmem_srl : ∀ x, x ∈ m.addrs ∨ x = tA ∨ x ∈ m2.addrs →
          x ∈ (RBT.PTree.node m tA tc tk m2).addrs := by
        intro x hx
        rw [RBT.PTree.addrs]
        rcases hx with hx | hx | hx
        · exact List.mem_append_left _ hx
        · exact List.mem_append_right _ (hx ▸ List.mem_cons_self _ _)
        · exact List.mem_append_right _ (List.mem_cons_of_mem _ hx)
      have hmem_in : ∀ x, x ∈ (RBT.PTree.node m tA tc tk m2).addrs →
          x ∈ (RBT.PTree.node (RBT.PTree.node m tA tc tk m2) e ec ek srr).addrs := by
        intro x hx
        rw [RBT.PTree.addrs]
        exact List.mem_append_left _ hx
      have hframe_srl : ∀ x, (x ∈ m.addrs ∨ x ∈ m2.addrs) → ¬ x = tA → h' x = h x := by
        intro x hx hxt
        have hxsrl : x ∈ (RBT.PTree.node m tA tc tk m2).addrs := by
          rcases hx with hx | hx
          · exact hmem_srl x (Or.inl hx)
          · exact hmem_srl x (Or.inr (Or.inr hx))
        refine Hfr x ?_ (fun hc => hesrl (hc ▸ hxsrl)) ?_ ?_
        · intro hc
          exact hpin (hc ▸ hmem_in x hxsrl)
        · intro tB htB hc
          obtain rfl := Option.some.inj (htAeq.symm.trans htB)
          exact hxt hc
        · rw [RBT.PTree.addrs]
          exact List.mem_append_right _ (List.mem_cons_of_mem _ (hmem_in x hxsrl))
      refine reprOk_node.mpr ⟨_, Ht tA ot htAeq hot, ?_, ?_, ?_⟩
      · rw [hrect]
      · rw [reprOk_congr (fun x hx => hframe_srl x (Or.inl hx) (fun hc => htm (hc ▸ hx)))]
        exact hm
      · rw [reprOk_congr (fun x hx => hframe_srl x (Or.inr hx) (fun hc => htm2 (hc ▸ hx)))]
        exact hm2
  rw [RBT.rot1]
  refine reprOk_node.mpr ⟨_, He, ?_, ?_, ?_⟩
  · rw [hrec1, hrec2]
    simp [RBT.PTree.rootA]
  · refine reprOk_node.mpr ⟨_, Hp, ?_, ?_, hsrlrep⟩
    · rw [hrec1, hrec2]
    · rw [reprOk_congr hslx]
      exact hsl
  · rw [reprOk_congr hsrrx]
    exact hsrr

theorem rot1_right_repr {h h' : Nat → Option RBT.Obj} {p e : Nat} {op oe : RBT.Obj}
    {sll slr sr : RBT.PTree} {sc ec : RBT.Color} {sk ek : Int}
    (hnd : (RBT.PTree.node (RBT.PTree.node sll e ec ek slr) p sc sk sr).addrs.Nodup)
    (hp : h p = some op) (he : h e = some oe)
    (Hp : h' p = some ⟨⟨oe.node.right, op.node.right, some e, op.node.color, op.node.contents⟩, op.refcount⟩)
    (He : h' e = some ⟨⟨oe.node.left, some p, op.node.parent, oe.node.color, oe.node.contents⟩, oe.refcount⟩)
    (Ht : ∀ tA ot, oe.node.right = some tA → h tA = some ot →
      h' tA = some ⟨⟨ot.node.left, ot.node.right, some p, ot.node.color, ot.node.contents⟩, ot.refcount⟩)
    (Hfr : ∀ x, ¬ x = p → ¬ x = e → (∀ tA, oe.node.right = some tA → ¬ x = tA) →
      x ∈ (RBT.PTree.node (RBT.PTree.node sll e ec ek slr) p sc sk sr).addrs → h' x = h x)
    {par2 : Option Nat}
    (hrep : RBT.reprOk h par2 (RBT.PTree.node (RBT.PTree.node sll e ec ek slr) p sc sk sr) = true) :
    RBT.reprOk h' par2
      (RBT.rot1 RBT.Dir.right (RBT.PTree.node (RBT.PTree.node sll e ec ek slr) p sc sk sr)) = true := by
  obtain ⟨o1, ho1, hrec1, hsl, hsr⟩ := reprOk_node.mp hrep
  obtain rfl := Option.some.inj (hp.symm.trans ho1)
  obtain ⟨o2, ho2, hrec2, hsll, hslr⟩ := reprOk_node.mp hsl
  obtain rfl := Option.some.inj (he.symm.trans ho2)
  obtain ⟨hndin, hndsr, hpin, hpsr, hdisj1⟩ := nodup_node hnd
  obtain ⟨hndsll, hndslr, hesll, heslr, hdisj2⟩ := nodup_node hndin
  have hoer : oe.node.right = slr.rootA := by rw [hrec2]
  have hsrx : ∀ x ∈ sr.addrs, h' x = h x := by
    intro x hx
    refine Hfr x (fun hc => hpsr (hc ▸ hx)) ?_ ?_ ?_
    · intro hc
      refine hdisj1 e ?_ (hc ▸ hx)
      rw [RBT.PTree.addrs]
      exact List.mem_append_right _ (List.mem_cons_self _ _)
    · intro tB htB hc
      rw [hoer] at htB
      have htBm : tB ∈ slr.addrs := rootA_mem htB
      refine hdisj1 tB ?_ (hc ▸ hx)
      rw [RBT.PTree.addrs]
      exact List.mem_append_right _ (List.mem_cons_of_mem _ htBm)
    · rw [RBT.PTree.addrs]
      exact List.mem_append_right _ (List.mem_cons_of_mem _ hx)
  have hsllx : ∀ x ∈ sll.addrs, h' x = h x := by
    intro x hx
    have hxin : x ∈ (RBT.PTree.node sll e ec ek slr).addrs := by
      rw [RBT.PTree.addrs]
      exact List.mem_append_left _ hx
    refine Hfr x ?_ (fun hc => hesll (hc ▸ hx)) ?_ ?_
    · intro hc
      exact hpin (hc ▸ hxin)
    · intro tB htB hc
      rw [hoer] at htB
      exact hdisj2 x hx (hc ▸ rootA_mem htB)
    · rw [RBT.PTree.addrs]
      exact List.mem_append_left _ hxin
  have hslrrep : RBT.reprOk h' (some p) slr = true := by
    cases slr with
    | leaf => rfl
    | node m tA tc tk m2 =>
      obtain ⟨ot, hot, hrect, hm, hm2⟩ := reprOk_node.mp hslr
      obtain ⟨hndm, hndm2, htm, htm2, hdisjm⟩ := nodup_node hndslr
      have htAeq : oe.node.right = some tA := by rw [hoer]; rfl
      have hmem_slr : ∀ x, x ∈ m.addrs ∨ x = tA ∨ x ∈ m2.addrs →
          x ∈ (RBT.PTree.node m tA tc tk m2).addrs := by
        intro x hx
        rw [RBT.PTree.addrs]
        rcases hx with hx | hx | hx
        · exact List.mem_append_left _ hx
        · exact List.mem_append_right _ (hx ▸ List.mem_cons_self _ _)
        · exact List.mem_append_right _ (List.mem_cons_of_mem _ hx)
      have hmem_in : ∀ x, x ∈ (RBT.PTree.node m tA tc tk m2).addrs →
          x ∈ (RBT.PTree.node sll e ec ek (RBT.PTree.node m tA tc tk m2)).addrs := by
        intro x hx
        rw [RBT.PTree.addrs]
        exact List.mem_append_right _ (List.mem_cons_of_mem _ hx)
      have hframe_slr : ∀ x, (x ∈ m.addrs ∨ x ∈ m2.addrs) → ¬ x = tA → h' x = h x := by
        intro x hx hxt
        have hxslr : x ∈ (RBT.PTree.node m tA tc tk m2).addrs := by
          rcases hx with hx | hx
          · exact hmem_slr x (Or.inl hx)
          · exact hmem_slr x (Or.inr (Or.inr hx))
        refine Hfr x ?_ (fun hc => heslr (hc ▸ hxslr)) ?_ ?_
        · intro hc
          exact hpin (hc ▸ hmem_in x hxslr)
        · intro tB htB hc
          obtain rfl := Option.some.inj (htAeq.symm.trans htB)
          exact hxt hc
        · rw [RBT.PTree.addrs]
          exact List.mem_append_left _ (hmem_in x hxslr)
      refine reprOk_node.mpr ⟨_, Ht tA ot htAeq hot, ?_, ?_, ?_⟩
      · rw [hrect]
      · rw [reprOk_congr (fun x hx => hframe_slr x (Or.inl hx) (fun hc => htm (hc ▸ hx)))]
        exact hm
      · rw [reprOk_congr (fun x hx => hframe_slr x (Or.inr hx) (fun hc => htm2 (hc ▸ hx)))]
        exact hm2
  rw [RBT.rot1]
  refine reprOk_node.mpr ⟨_, He, ?_, ?_, ?_⟩
  · rw [hrec1, hrec2]
    simp [RBT.PTree.rootA]
  · rw [reprOk_congr hsllx]
    exact hsll
  · refine reprOk_node.mpr ⟨_, Hp, ?_, hslrrep, ?_⟩
    · rw [hrec1, hrec2]
    · rw [reprOk_congr hsrx]
      exact hsr

theorem rotate_left_full {s : RBT.St} {t sub : RBT.PTree} {p : Nat}
    (hwf : RBT.Wf s t) (hf : t.findA p = some sub)
    (hop : ¬ RBT.oppC RBT.Dir.left sub = RBT.PTree.leaf) :
    ∃ s', RBT.rotate s (some p) RBT.Dir.left = some s' ∧
      RBT.Wf s' (t.replaceA p (RBT.rot1 RBT.Dir.left sub)) ∧
      (t.replaceA p (RBT.rot1 RBT.Dir.left sub)).inorder = t.inorder ∧
      (t.rootA = some p → s'.root = (RBT.oppC RBT.Dir.left sub).rootA) ∧
      (¬ t.rootA = some p → s'.root = s.root) ∧
      s'.nextAddr = s.nextAddr := by
  obtain ⟨hroot, hrepr, hnd⟩ := hwf
  obtain ⟨hpmem0, hsubroot⟩ := findA_some hf
  have hndsub : sub.addrs.Nodup := hnd.sublist (findA_sub_sublist hf)
  cases sub with
  | leaf => cases hsubroot
  | node sl p0 sc sk sr =>
  obtain rfl : p = p0 := (Option.some.inj hsubroot).symm
  cases sr with
  | leaf => exact absurd rfl hop
  | node srl e ec ek srr =>
  obtain ⟨hndsl, hndin, hpsl, hpin, hdisj1⟩ := nodup_node hndsub
  obtain ⟨hndsrl, hndsrr, hesrl, hesrr, hdisj2⟩ := nodup_node hndin
  -- memberships inside the pivot subtree
  have hemem_in : e ∈ (RBT.PTree.node srl e ec ek srr).addrs := by
    rw [RBT.PTree.addrs]; exact List.mem_append_right _ (List.mem_cons_self _ _)
  have hsrlmem_in : ∀ x ∈ srl.addrs, x ∈ (RBT.PTree.node srl e ec ek srr).addrs := by
    intro x hx
    rw [RBT.PTree.addrs]; exact List.mem_append_left _ hx
  have hsubmem : ∀ x ∈ (RBT.PTree.node srl e ec ek srr).addrs,
      x ∈ (RBT.PTree.node sl p sc sk (RBT.PTree.node srl e ec ek srr)).addrs := by
    intro x hx
    rw [RBT.PTree.addrs]; exact List.mem_append_right _ (List.mem_cons_of_mem _ hx)
  have hpmem : p ∈ (RBT.PTree.node sl p sc sk (RBT.PTree.node srl e ec ek srr)).addrs := by
    rw [RBT.PTree.addrs]; exact List.mem_append_right _ (List.mem_cons_self _ _)
  have hpe : ¬ p = e := fun hc => hpin (hc ▸ hemem_in)
  -- the position of the pivot in the whole tree
  rcases findA_position hrepr hnd hf with ⟨hrootp, heqt, huniq⟩ |
    ⟨hnrootp, q, hqmem, hqns, hqrep, oq, hoq, hxor, huniq⟩
  · -- the pivot is the root of the whole tree
    have hsubrep : RBT.reprOk s.heap none
        (RBT.PTree.node sl p sc sk (RBT.PTree.node srl e ec ek srr)) = true := by
      rw [heqt]; exact hrepr
    obtain ⟨op, hpo, hrec1, hsl2, hsr2⟩ := reprOk_node.mp hsubrep
    obtain ⟨oe, heo, hrec2, hsrl2, hsrr2⟩ := reprOk_node.mp hsr2
    have hopr : op.node.right = some e := by rw [hrec1]; rfl
    have hopp : op.node.parent = none := by rw [hrec1]
    have hoel : oe.node.left = srl.rootA := by rw [hrec2]
    have htmem : ∀ tB, oe.node.left = some tB → tB ∈ srl.addrs := by
      intro tB htB
      rw [hoel] at htB
      exact rootA_mem htB
    have hq : ∀ q', op.node.parent = some q' → ∃ oq', s.heap q' = some oq' ∧ q' ≠ p ∧ q' ≠ e ∧
        ∀ tA, oe.node.left = some tA → q' ≠ tA := by
      intro q' hq'
      rw [hopp] at hq'
      exact Option.noConfusion hq'
    have ht : ∀ tA, oe.node.left = some tA → ∃ ot, s.heap tA = some ot ∧ tA ≠ p ∧ tA ≠ e := by
      intro tA htA
      have htAm := htmem tA htA
      obtain ⟨ot, hot⟩ := mem_record hsrl2 htAm
      exact ⟨ot, hot, fun hc => hpin (hc ▸ hsrlmem_in tA htAm),
        fun hc => hesrl (hc ▸ htAm)⟩
    obtain ⟨s', hrun, hnext, hrootnone, hrootsome, HpC, HeC, HtC, HqC, HfrC⟩ :=
      rotate_left_exec hpo hopr heo hpe hq ht
    have Hfr : ∀ x, ¬ x = p → ¬ x = e → (∀ tA, oe.node.left = some tA → ¬ x = tA) →
        x ∈ (RBT.PTree.node sl p sc sk (RBT.PTree.node srl e ec ek srr)).addrs →
        s'.heap x = s.heap x := by
      intro x hxp hxe hxt _
      refine HfrC x hxp hxe ?_ hxt
      intro q' hq'
      rw [hopp] at hq'
      exact Option.noConfusion hq'
    have H1 : ∀ par2, RBT.reprOk s.heap par2
        (RBT.PTree.node sl p sc sk (RBT.PTree.node srl e ec ek srr)) = true →
        RBT.reprOk s'.heap par2
          (RBT.rot1 RBT.Dir.left (RBT.PTree.node sl p sc sk (RBT.PTree.node srl e ec ek srr))) = true := by
      intro par2 hrep2
      exact rot1_left_repr hndsub hpo heo HpC HeC HtC Hfr hrep2
    have H2 : ∀ x ox, x ∈ t.addrs →
        x ∉ (RBT.PTree.node sl p sc sk (RBT.PTree.node srl e ec ek srr)).addrs →
        s.heap x = some ox →
        (¬ ox.node.left = some p → ¬ ox.node.right = some p → s'.heap x = s.heap x) ∧
        (ox.node.left = some p →
          s'.heap x = some ⟨⟨some e, ox.node.right, ox.node.parent, ox.node.color, ox.node.contents⟩, ox.refcount⟩) ∧
        (¬ ox.node.left = some p → ox.node.right = some p →
          s'.heap x = some ⟨⟨ox.node.left, some e, ox.node.parent, ox.node.color, ox.node.contents⟩, ox.refcount⟩) := by
      intro x ox hx hxs hox
      obtain ⟨hs1, hs2⟩ := huniq x ox hx hox
      refine ⟨fun _ _ => ?_, fun hc => absurd hc hs1, fun _ hc => absurd hc hs2⟩
      refine HfrC x (fun hc => hxs (hc ▸ hpmem)) (fun hc => hxs (hc ▸ hsubmem e hemem_in)) ?_ ?_
      · intro q' hq'
        rw [hopp] at hq'
        exact Option.noConfusion hq'
      · intro tA htA hc
        exact hxs (hc ▸ hsubmem tA (hsrlmem_in tA (htmem tA htA)))
    have hnew : (RBT.rot1 RBT.Dir.left
        (RBT.PTree.node sl p sc sk (RBT.PTree.node srl e ec ek srr))).rootA = some e := rfl
    have hreplA : (t.replaceA p (RBT.rot1 RBT.Dir.left
        (RBT.PTree.node sl p sc sk (RBT.PTree.node srl e ec ek srr)))).rootA = some e := by
      rw [replaceA_root_rootA hrootp, hnew]
    refine ⟨s', hrun, ⟨?_, ?_, ?_⟩, inorder_replace_rot hf hnd, ?_, ?_, hnext⟩
    · rw [hrootnone hopp, hreplA]
    · exact replace_reprOk hnew H1 H2 hrepr hnd (fun x hx => hx) hf
    · have haddr : (t.replaceA p (RBT.rot1 RBT.Dir.left
          (RBT.PTree.node sl p sc sk (RBT.PTree.node srl e ec ek srr)))).addrs = t.addrs := by
        rw [addrs_eq_map, inorder_replace_rot hf hnd, ← addrs_eq_map]
      rw [haddr]
      exact hnd
    · intro _
      rw [hrootnone hopp]
      rfl
    · intro hc
      exact absurd hrootp hc
  · -- the pivot has a structural parent q in the whole tree
    obtain ⟨op, hpo, hrec1, hsl2, hsr2⟩ := reprOk_node.mp hqrep
    obtain ⟨oe, heo, hrec2, hsrl2, hsrr2⟩ := reprOk_node.mp hsr2
    have hopr : op.node.right = some e := by rw [hrec1]; rfl
    have hopp : op.node.parent = some q := by rw [hrec1]
    have hoel : oe.node.left = srl.rootA := by rw [hrec2]
    have htmem : ∀ tB, oe.node.left = some tB → tB ∈ srl.addrs := by
      intro tB htB
      rw [hoel] at htB
      exact rootA_mem htB
    have hq : ∀ q', op.node.parent = some q' → ∃ oq', s.heap q' = some oq' ∧ q' ≠ p ∧ q' ≠ e ∧
        ∀ tA, oe.node.left = some tA → q' ≠ tA := by
      intro q' hq'
      rw [hopp] at hq'
      obtain rfl := Option.some.inj hq'
      exact ⟨oq, hoq, fun hc => hqns (hc ▸ hpmem), fun hc => hqns (hc ▸ hsubmem e hemem_in),
        fun tA htA hc => hqns (hc ▸ hsubmem tA (hsrlmem_in tA (htmem tA htA)))⟩
    have ht : ∀ tA, oe.node.left = some tA → ∃ ot, s.heap tA = some ot ∧ tA ≠ p ∧ tA ≠ e := by
      intro tA htA
      have htAm := htmem tA htA
      obtain ⟨ot, hot⟩ := mem_record hsrl2 htAm
      exact ⟨ot, hot, fun hc => hpin (hc ▸ hsrlmem_in tA htAm),
        fun hc => hesrl (hc ▸ htAm)⟩
    obtain ⟨s', hrun, hnext, hrootnone, hrootsome, HpC, HeC, HtC, HqC, HfrC⟩ :=
      rotate_left_exec hpo hopr heo hpe hq ht
    have Hfr : ∀ x, ¬ x = p → ¬ x = e → (∀ tA, oe.node.left = some tA → ¬ x = tA) →
        x ∈ (RBT.PTree.node sl p sc sk (RBT.PTree.node srl e ec ek srr)).addrs →
        s'.heap x = s.heap x := by
      intro x hxp hxe hxt hxm
      refine HfrC x hxp hxe ?_ hxt
      intro q' hq'
      rw [hopp] at hq'
      obtain rfl := Option.some.inj hq'
      exact fun hc => hqns (hc ▸ hxm)
    have H1 : ∀ par2, RBT.reprOk s.heap par2
        (RBT.PTree.node sl p sc sk (RBT.PTree.node srl e ec ek srr)) = true →
        RBT.reprOk s'.heap par2
          (RBT.rot1 RBT.Dir.left (RBT.PTree.node sl p sc sk (RBT.PTree.node srl e ec ek srr))) = true := by
      intro par2 hrep2
      exact rot1_left_repr hndsub hpo heo HpC HeC HtC Hfr hrep2
    have H2 : ∀ x ox, x ∈ t.addrs →
        x ∉ (RBT.PTree.node sl p sc sk (RBT.PTree.node srl e ec ek srr)).addrs →
        s.heap x = some ox →
        (¬ ox.node.left = some p → ¬ ox.node.right = some p → s'.heap x = s.heap x) ∧
        (ox.node.left = some p →
          s'.heap x = some ⟨⟨some e, ox.node.right, ox.node.parent, ox.node.color, ox.node.contents⟩, ox.refcount⟩) ∧
        (¬ ox.node.left = some p → ox.node.right = some p →
          s'.heap x = some ⟨⟨ox.node.left, some e, ox.node.parent, ox.node.color, ox.node.contents⟩, ox.refcount⟩) := by
      intro x ox hx hxs hox
      by_cases hxq : x = q
      · have hoppx : op.node.parent = some x := by rw [hxq]; exact hopp
        have hoqx : s.heap x = some oq := by rw [hxq]; exact hoq
        obtain rfl := Option.some.inj (hoqx.symm.trans hox)
        obtain ⟨hql, hqr⟩ := HqC x _ hoppx hox
        refine ⟨?_, fun hc => hql hc, fun hc1 hc2 => hqr hc1⟩
        intro hc1 hc2
        rcases hxor with ⟨hl, -⟩ | ⟨hr, -⟩
        · exact absurd hl hc1
        · exact absurd hr hc2
      · obtain ⟨hs1, hs2⟩ := huniq x ox hx hxq hox
        refine ⟨fun _ _ => ?_, fun hc => absurd hc hs1, fun _ hc => absurd hc hs2⟩
        refine HfrC x (fun hc => hxs (hc ▸ hpmem)) (fun hc => hxs (hc ▸ hsubmem e hemem_in)) ?_ ?_
        · intro q' hq'
          rw [hopp] at hq'
          obtain rfl := Option.some.inj hq'
          exact hxq
        · intro tA htA hc
          exact hxs (hc ▸ hsubmem tA (hsrlmem_in tA (htmem tA htA)))
    have hnew : (RBT.rot1 RBT.Dir.left
        (RBT.PTree.node sl p sc sk (RBT.PTree.node srl e ec ek srr))).rootA = some e := rfl
    refine ⟨s', hrun, ⟨?_, ?_, ?_⟩, inorder_replace_rot hf hnd, ?_, ?_, hnext⟩
    · rw [hrootsome (by rw [hopp]; exact fun hc => Option.noConfusion hc), hroot,
        rootA_replaceA hnrootp]
    · exact replace_reprOk hnew H1 H2 hrepr hnd (fun x hx => hx) hf
    · have haddr : (t.replaceA p (RBT.rot1 RBT.Dir.left
          (RBT.PTree.node sl p sc sk (RBT.PTree.node srl e ec ek srr)))).addrs = t.addrs := by
        rw [addrs_eq_map, inorder_replace_rot hf hnd, ← addrs_eq_map]
      rw [haddr]
      exact hnd
    · intro hc
      exact absurd hc hnrootp
    · intro _
      exact hrootsome (by rw [hopp]; exact fun hc => Option.noConfusion hc)

theorem rotate_right_full {s : RBT.St} {t sub : RBT.PTree} {p : Nat}
    (hwf : RBT.Wf s t) (hf : t.findA p = some sub)
    (hop : ¬ RBT.oppC RBT.Dir.right sub = RBT.PTree.leaf) :
    ∃ s', RBT.rotate s (some p) RBT.Dir.right = some s' ∧
      RBT.Wf s' (t.replaceA p (RBT.rot1 RBT.Dir.right sub)) ∧
      (t.replaceA p (RBT.rot1 RBT.Dir.right sub)).inorder = t.inorder ∧
      (t.rootA = some p → s'.root = (RBT.oppC RBT.Dir.right sub).rootA) ∧
      (¬ t.rootA = some p → s'.root = s.root) ∧
      s'.nextAddr = s.nextAddr := by
  obtain ⟨hroot, hrepr, hnd⟩ := hwf
  obtain ⟨hpmem0, hsubroot⟩ := findA_some hf
  have hndsub : sub.addrs.Nodup := hnd.sublist (findA_sub_sublist hf)
  cases sub with
  | leaf => cases hsubroot
  | node sl0 p0 sc sk sr =>
  obtain rfl : p = p0 := (Option.some.inj hsubroot).symm
  cases sl0 with
  | leaf => exact absurd rfl hop
  | node sll e ec ek slr =>
  obtain ⟨hndin, hndsr, hpin, hpsr, hdisj1⟩ := nodup_node hndsub
  obtain ⟨hndsll, hndslr, hesll, heslr, hdisj2⟩ := nodup_node hndin
  have hemem_in : e ∈ (RBT.PTree.node sll e ec ek slr).addrs := by
    rw [RBT.PTree.addrs]; exact List.mem_append_right _ (List.mem_cons_self _ _)
  have hslrmem_in : ∀ x ∈ slr.addrs, x ∈ (RBT.PTree.node sll e ec ek slr).addrs := by
    intro x hx
    rw [RBT.PTree.addrs]; exact List.mem_append_right _ (List.mem_cons_of_mem _ hx)
  have hsubmem : ∀ x ∈ (RBT.PTree.node sll e ec ek slr).addrs,
      x ∈ (RBT.PTree.node (RBT.PTree.node sll e ec ek slr) p sc sk sr).addrs := by
    intro x hx
    rw [RBT.PTree.addrs]; exact List.mem_append_left _ hx
  have hpmem : p ∈ (RBT.PTree.node (RBT.PTree.node sll e ec ek slr) p sc sk sr).addrs := by
    rw [RBT.PTree.addrs]; exact List.mem_append_right _ (List.mem_cons_self _ _)
  have hpe : ¬ p = e := fun hc => hpin (hc ▸ hemem_in)
  rcases findA_position hrepr hnd hf with ⟨hrootp, heqt, huniq⟩ |
    ⟨hnrootp, q, hqmem, hqns, hqrep, oq, hoq, hxor, huniq⟩
  · have hsubrep : RBT.reprOk s.heap none
        (RBT.PTree.node (RBT.PTree.node sll e ec ek slr) p sc sk sr) = true := by
      rw [heqt]; exact hrepr
    obtain ⟨op, hpo, hrec1, hin2, hsr2⟩ := reprOk_node.mp hsubrep
    obtain ⟨oe, heo, hrec2, hsll2, hslr2⟩ := reprOk_node.mp hin2
    have hopl : op.node.left = some e := by rw [hrec1]; rfl
    have hopp : op.node.parent = none := by rw [hrec1]
    have hoer : oe.node.right = slr.rootA := by rw [hrec2]
    have htmem : ∀ tB, oe.node.right = some tB → tB ∈ slr.addrs := by
      intro tB htB
      rw [hoer] at htB
      exact rootA_mem htB
    have hq : ∀ q', op.node.parent = some q' → ∃ oq', s.heap q' = some oq' ∧ q' ≠ p ∧ q' ≠ e ∧
        ∀ tA, oe.node.right = some tA → q' ≠ tA := by
      intro q' hq'
      rw [hopp] at hq'
      exact Option.noConfusion hq'
    have ht : ∀ tA, oe.node.right = some tA → ∃ ot, s.heap tA = some ot ∧ tA ≠ p ∧ tA ≠ e := by
      intro tA htA
      have htAm := htmem tA htA
      obtain ⟨ot, hot⟩ := mem_record hslr2 htAm
      exact ⟨ot, hot, fun hc => hpin (hc ▸ hslrmem_in tA htAm),
        fun hc => heslr (hc ▸ htAm)⟩
    obtain ⟨s', hrun, hnext, hrootnone, hrootsome, HpC, HeC, HtC, HqC, HfrC⟩ :=
      rotate_right_exec hpo hopl heo hpe hq ht
    have Hfr : ∀ x, ¬ x = p → ¬ x = e → (∀ tA, oe.node.right = some tA → ¬ x = tA) →
        x ∈ (RBT.PTree.node (RBT.PTree.node sll e ec ek slr) p sc sk sr).addrs →
        s'.heap x = s.heap x := by
      intro x hxp hxe hxt _
      refine HfrC x hxp hxe ?_ hxt
      intro q' hq'
      rw [hopp] at hq'
      exact Option.noConfusion hq'
    have H1 : ∀ par2, RBT.reprOk s.heap par2
        (RBT.PTree.node (RBT.PTree.node sll e ec ek slr) p sc sk sr) = true →
        RBT.reprOk s'.heap par2
          (RBT.rot1 RBT.Dir.right (RBT.PTree.node (RBT.PTree.node sll e ec ek slr) p sc sk sr)) = true := by
      intro par2 hrep2
      exact rot1_right_repr hndsub hpo heo HpC HeC HtC Hfr hrep2
    have H2 : ∀ x ox, x ∈ t.addrs →
        x ∉ (RBT.PTree.node (RBT.PTree.node sll e ec ek slr) p sc sk sr).addrs →
        s.heap x = some ox →
        (¬ ox.node.left = some p → ¬ ox.node.right = some p → s'.heap x = s.heap x) ∧
        (ox.node.left = some p →
          s'.heap x = some ⟨⟨some e, ox.node.right, ox.node.parent, ox.node.color, ox.node.contents⟩, ox.refcount⟩) ∧
        (¬ ox.node.left = some p → ox.node.right = some p →
          s'.heap x = some ⟨⟨ox.node.left, some e, ox.node.parent, ox.node.color, ox.node.contents⟩, ox.refcount⟩) := by
      intro x ox hx hxs hox
      obtain ⟨hs1, hs2⟩ := huniq x ox hx hox
      refine ⟨fun _ _ => ?_, fun hc => absurd hc hs1, fun _ hc => absurd hc hs2⟩
      refine HfrC x (fun hc => hxs (hc ▸ hpmem)) (fun hc => hxs (hc ▸ hsubmem e hemem_in)) ?_ ?_
      · intro q' hq'
        rw [hopp] at hq'
        exact Option.noConfusion hq'
      · intro tA htA hc
        exact hxs (hc ▸ hsubmem tA (hslrmem_in tA (htmem tA htA)))
    have hnew : (RBT.rot1 RBT.Dir.right
        (RBT.PTree.node (RBT.PTree.node sll e ec ek slr) p sc sk sr)).rootA = some e := rfl
    have hreplA : (t.replaceA p (RBT.rot1 RBT.Dir.right
        (RBT.PTree.node (RBT.PTree.node sll e ec ek slr) p sc sk sr))).rootA = some e := by
      rw [replaceA_root_rootA hrootp, hnew]
    refine ⟨s', hrun, ⟨?_, ?_, ?_⟩, inorder_replace_rot hf hnd, ?_, ?_, hnext⟩
    · rw [hrootnone hopp, hreplA]
    · exact replace_reprOk hnew H1 H2 hrepr hnd (fun x hx => hx) hf
    · have haddr : (t.replaceA p (RBT.rot1 RBT.Dir.right
          (RBT.PTree.node (RBT.PTree.node sll e ec ek slr) p sc sk sr))).addrs = t.addrs := by
        rw [addrs_eq_map, inorder_replace_rot hf hnd, ← addrs_eq_map]
      rw [haddr]
      exact hnd
    · intro _
      rw [hrootnone hopp]
      rfl
    · intro hc
      exact absurd hrootp hc
  · obtain ⟨op, hpo, hrec1, hin2, hsr2⟩ := reprOk_node.mp hqrep
    obtain ⟨oe, heo, hrec2, hsll2, hslr2⟩ := reprOk_node.mp hin2
    have hopl : op.node.left = some e := by rw [hrec1]; rfl
    have hopp : op.node.parent = some q := by rw [hrec1]
    have hoer : oe.node.right = slr.rootA := by rw [hrec2]
    have htmem : ∀ tB, oe.node.right = some tB → tB ∈ slr.addrs := by
      intro tB htB
      rw [hoer] at htB
      exact rootA_mem htB
    have hq : ∀ q', op.node.parent = some q' → ∃ oq', s.heap q' = some oq' ∧ q' ≠ p ∧ q' ≠ e ∧
        ∀ tA, oe.node.right = some tA → q' ≠ tA := by
      intro q' hq'
      rw [hopp] at hq'
      obtain rfl := Option.some.inj hq'
      exact ⟨oq, hoq, fun hc => hqns (hc ▸ hpmem), fun hc => hqns (hc ▸ hsubmem e hemem_in),
        fun tA htA hc => hqns (hc ▸ hsubmem tA (hslrmem_in tA (htmem tA htA)))⟩
    have ht : ∀ tA, oe.node.right = some tA → ∃ ot, s.heap tA = some ot ∧ tA ≠ p ∧ tA ≠ e := by
      intro tA htA
      have htAm := htmem tA htA
      obtain ⟨ot, hot⟩ := mem_record hslr2 htAm
      exact ⟨ot, hot, fun hc => hpin (hc ▸ hslrmem_in tA htAm),
        fun hc => heslr (hc ▸ htAm)⟩
    obtain ⟨s', hrun, hnext, hrootnone, hrootsome, HpC, HeC, HtC, HqC, HfrC⟩ :=
      rotate_right_exec hpo hopl heo hpe hq ht
    have Hfr : ∀ x, ¬ x = p → ¬ x = e → (∀ tA, oe.node.right = some tA → ¬ x = tA) →
        x ∈ (RBT.PTree.node (RBT.PTree.node sll e ec ek slr) p sc sk sr).addrs →
        s'.heap x = s.heap x := by
      intro x hxp hxe hxt hxm
      refine HfrC x hxp hxe ?_ hxt
      intro q' hq'
      rw [hopp] at hq'
      obtain rfl := Option.some.inj hq'
      exact fun hc => hqns (hc ▸ hxm)
    have H1 : ∀ par2, RBT.reprOk s.heap par2
        (RBT.PTree.node (RBT.PTree.node sll e ec ek slr) p sc sk sr) = true →
        RBT.reprOk s'.heap par2
          (RBT.rot1 RBT.Dir.right (RBT.PTree.node (RBT.PTree.node sll e ec ek slr) p sc sk sr)) = true := by
      intro par2 hrep2
      exact rot1_right_repr hndsub hpo heo HpC HeC HtC Hfr hrep2
    have H2 : ∀ x ox, x ∈ t.addrs →
        x ∉ (RBT.PTree.node (RBT.PTree.node sll e ec ek slr) p sc sk sr).addrs →
        s.heap x = some ox →
        (¬ ox.node.left = some p → ¬ ox.node.right = some p → s'.heap x = s.heap x) ∧
        (ox.node.left = some p →
          s'.heap x = some ⟨⟨some e, ox.node.right, ox.node.parent, ox.node.color, ox.node.contents⟩, ox.refcount⟩) ∧
        (¬ ox.node.left = some p → ox.node.right = some p →
          s'.heap x = some ⟨⟨ox.node.left, some e, ox.node.parent, ox.node.color, ox.node.contents⟩, ox.refcount⟩) := by
      intro x ox hx hxs hox
      by_cases hxq : x = q
      · have hoppx : op.node.parent = some x := by rw [hxq]; exact hopp
        have hoqx : s.heap x = some oq := by rw [hxq]; exact hoq
        obtain rfl := Option.some.inj (hoqx.symm.trans hox)
        obtain ⟨hql, hqr⟩ := HqC x _ hoppx hox
        refine ⟨?_, fun hc => hql hc, fun hc1 hc2 => hqr hc1⟩
        intro hc1 hc2
        rcases hxor with ⟨hl, -⟩ | ⟨hr, -⟩
        · exact absurd hl hc1
        · exact absurd hr hc2
      · obtain ⟨hs1, hs2⟩ := huniq x ox hx hxq hox
        refine ⟨fun _ _ => ?_, fun hc => absurd hc hs1, fun _ hc => absurd hc hs2⟩
        refine HfrC x (fun hc => hxs (hc ▸ hpmem)) (fun hc => hxs (hc ▸ hsubmem e hemem_in)) ?_ ?_
        · intro q' hq'
          rw [hopp] at hq'
          obtain rfl := Option.some.inj hq'
          exact hxq
        · intro tA htA hc
          exact hxs (hc ▸ hsubmem tA (hslrmem_in tA (htmem tA htA)))
    have hnew : (RBT.rot1 RBT.Dir.right
        (RBT.PTree.node (RBT.PTree.node sll e ec ek slr) p sc sk sr)).rootA = some e := rfl
    refine ⟨s', hrun, ⟨?_, ?_, ?_⟩, inorder_replace_rot hf hnd, ?_, ?_, hnext⟩
    · rw [hrootsome (by rw [hopp]; exact fun hc => Option.noConfusion hc), hroot,
        rootA_replaceA hnrootp]
    · exact replace_reprOk hnew H1 H2 hrepr hnd (fun x hx => hx) hf
    · have haddr : (t.replaceA p (RBT.rot1 RBT.Dir.right
          (RBT.PTree.node (RBT.PTree.node sll e ec ek slr) p sc sk sr))).addrs = t.addrs := by
        rw [addrs_eq_map, inorder_replace_rot hf hnd, ← addrs_eq_map]
      rw [haddr]
      exact hnd
    · intro hc
      exact absurd hc hnrootp
    · intro _
      exact hrootsome (by rw [hopp]; exact fun hc => Option.noConfusion hc)


theorem lookup_node_plookup {s : RBT.St} {comp : Int → Int → Int} :
    ∀ {t : RBT.PTree} {par : Option Nat} {fuel : Nat} {v : Int},
      RBT.reprOk s.heap par t = true → t.addrs.length < fuel →
      RBT.rbt_lookup_node comp fuel s t.rootA v = some (RBT.plookup comp t v) := by
  intro t
  induction t with
  | leaf =>
    intro par fuel v _ hfuel
    cases fuel with
    | zero => cases hfuel
    | succ f => rfl
  | node l a c k r ihl ihr =>
    intro par fuel v hrep hfuel
    obtain ⟨o, ho, hrec, hl, hr⟩ := reprOk_node.mp hrep
    cases fuel with
    | zero => cases hfuel
    | succ f =>
      have hlen : (RBT.PTree.node l a c k r).addrs.length = l.addrs.length + 1 + r.addrs.length := by
        rw [RBT.PTree.addrs, List.length_append, List.length_cons]
        omega
      have hread : RBT.readNode s a = some o.node := by
        rw [RBT.readNode, ho]
        rfl
      have hcont : o.node.contents = k := by rw [hrec]
      have holft : o.node.left = l.rootA := by rw [hrec]
      have horgt : o.node.right = r.rootA := by rw [hrec]
      rw [RBT.rbt_lookup_node.eq_def]
      simp only [RBT.PTree.rootA, hread, Option.bind_eq_bind, Option.some_bind, hrec]
      rw [RBT.plookup]
      by_cases h0 : comp v k = 0
      · simp [h0]
      · by_cases h1 : comp v k > 0
        · simp only [h0, if_false, h1, if_true]
          refine ihr hr ?_
          omega
        · simp only [h0, if_false, h1, if_true]
          refine ihl hl ?_
          omega



theorem icmp_eq_zero {a b : Int} : RBT.icmp a b = 0 ↔ a = b := by
  rw [RBT.icmp]
  by_cases h : a = b
  · simp [h]
  · by_cases h2 : a < b <;> simp [h, h2]

theorem icmp_pos {a b : Int} : RBT.icmp a b > 0 ↔ b < a := by
  rw [RBT.icmp]
  by_cases h : a = b
  · simp [h]
  · by_cases h2 : a < b
    · simp [h, h2]
      omega
    · simp [h, h2]
      omega

theorem keys_node {l r : RBT.PTree} {a : Nat} {c : RBT.Color} {k : Int} :
    (RBT.PTree.node l a c k r).keys = l.keys ++ k :: r.keys := by
  rw [RBT.PTree.keys, RBT.PTree.inorder]
  simp [RBT.PTree.keys]

theorem plookup_mem {t : RBT.PTree} {v : Int} {a : Nat}
    (h : RBT.plookup RBT.icmp t v = some a) : (a, v) ∈ t.inorder := by
  induction t with
  | leaf => cases h
  | node l a0 c k r ihl ihr =>
    rw [RBT.plookup] at h
    by_cases h0 : RBT.icmp v k = 0
    · rw [if_pos h0] at h
      obtain rfl := Option.some.inj h
      obtain rfl : v = k := icmp_eq_zero.mp h0
      rw [RBT.PTree.inorder]
      exact List.mem_append_right _ (List.mem_cons_self _ _)
    · rw [if_neg h0] at h
      by_cases h1 : RBT.icmp v k > 0
      · rw [if_pos h1] at h
        rw [RBT.PTree.inorder]
        exact List.mem_append_right _ (List.mem_cons_of_mem _ (ihr h))
      · rw [if_neg h1] at h
        rw [RBT.PTree.inorder]
        exact List.mem_append_left _ (ihl h)

theorem plookup_none_not_mem {t : RBT.PTree} {v : Int}
    (hs : t.keys.Pairwise (· ≤ ·))
    (h : RBT.plookup RBT.icmp t v = none) : v ∉ t.keys := by
  induction t with
  | leaf => simp [RBT.PTree.keys, RBT.PTree.inorder]
  | node l a0 c k r ihl ihr =>
    rw [keys_node] at hs ⊢
    obtain ⟨hsl, hskr, hcross⟩ := List.pairwise_append.mp hs
    obtain ⟨hkler, hsr⟩ := List.pairwise_cons.mp hskr
    rw [RBT.plookup] at h
    by_cases h0 : RBT.icmp v k = 0
    · rw [if_pos h0] at h
      cases h
    · have hvk : ¬ v = k := fun hc => h0 (icmp_eq_zero.mpr hc)
      rw [if_neg h0] at h
      by_cases h1 : RBT.icmp v k > 0
      · rw [if_pos h1] at h
        have hkv : k < v := icmp_pos.mp h1
        intro hmem
        rcases List.mem_append.mp hmem with hmem | hmem
        · have : v ≤ k := hcross v hmem k (List.mem_cons_self _ _)
          omega
        · rcases List.mem_cons.mp hmem with hmem | hmem
          · exact hvk hmem
          · exact ihr hsr h hmem
      · rw [if_neg h1] at h
        have hvltk : v < k := by
          have h2 : ¬ k < v := fun hc => h1 (icmp_pos.mpr hc)
          omega
        intro hmem
        rcases List.mem_append.mp hmem with hmem | hmem
        · exact ihl hsl h hmem
        · rcases List.mem_cons.mp hmem with hmem | hmem
          · exact hvk hmem
          · have : k ≤ v := hkler v hmem
            omega


/-- Claim C6: for every well-formed tree state and every pivot node that has
a child on the side opposite the rotation direction, a single rotation
succeeds and leaves the in-order traversal unchanged, replaces the pivot by
that opposite-side child in the pivot's former position (updating the root
pointer exactly when the pivot was the root, else leaving it alone, with the
parent's correct child slot relinked as part of well-formedness), and leaves
every parent back-reference equal to the new structural parent (the new
layout again represents the rotated pure tree). -/
theorem claim_C6_rotation {s : RBT.St} {t sub : RBT.PTree} {p : Nat} {d : RBT.Dir}
    (hwf : RBT.Wf s t) (hf : t.findA p = some sub)
    (hop : ¬ RBT.oppC d sub = RBT.PTree.leaf) :
    ∃ s', RBT.rotate s (some p) d = some s' ∧
      RBT.Wf s' (t.replaceA p (RBT.rot1 d sub)) ∧
      (t.replaceA p (RBT.rot1 d sub)).inorder = t.inorder ∧
      (t.rootA = some p → s'.root = (RBT.oppC d sub).rootA) ∧
      (¬ t.rootA = some p → s'.root = s.root) ∧
      s'.nextAddr = s.nextAddr := by
  cases d with
  | left => exact rotate_left_full hwf hf hop
  | right => exact rotate_right_full hwf hf hop


/-- Witness for claim C6: rotating LEFT at the root of the two-node tree
c6state produces the rotated layout. -/
theorem claim_C6_witness :
    (RBT.Wf RBT.c6state RBT.c6tree ∧ RBT.c6tree.findA 0 = some RBT.c6tree ∧
      ¬ RBT.oppC RBT.Dir.left RBT.c6tree = RBT.PTree.leaf) ∧
    (∃ s', RBT.rotate RBT.c6state (some 0) RBT.Dir.left = some s' ∧
      RBT.Wf s' (RBT.c6tree.replaceA 0 (RBT.rot1 RBT.Dir.left RBT.c6tree)) ∧
      (RBT.c6tree.replaceA 0 (RBT.rot1 RBT.Dir.left RBT.c6tree)).inorder = RBT.c6tree.inorder ∧
      (RBT.c6tree.rootA = some 0 → s'.root = (RBT.oppC RBT.Dir.left RBT.c6tree).rootA) ∧
      (¬ RBT.c6tree.rootA = some 0 → s'.root = RBT.c6state.root) ∧
      s'.nextAddr = RBT.c6state.nextAddr) := by
  have hwf : RBT.Wf RBT.c6state RBT.c6tree := ⟨rfl, by decide, by decide⟩
  exact ⟨⟨hwf, by decide, by decide⟩, claim_C6_rotation hwf (by decide) (by decide)⟩


/-- Claim C2 (amended): rbt_lookup follows the comparator-guided search path
and returns exactly the node that the pure path search plookup finds, the
topmost comparator-equal node on the path; on a well-formed tree with
non-decreasing in-order keys that node's key is comparator-equal to the
query whenever it exists, and the result is none exactly when no
comparator-equal key is present.  (The original claim that it is the node
last inserted is refuted by claim_C2_counterexample.) -/
theorem claim_C2_lookup_comparator_equal {s : RBT.St} {t : RBT.PTree} {fuel : Nat} {v : Int}
    (hwf : RBT.Wf s t) (hfuel : t.addrs.length < fuel)
    (hsorted : t.keys.Pairwise (· ≤ ·)) :
    RBT.rbt_lookup RBT.icmp fuel s v = some (RBT.plookup RBT.icmp t v) ∧
    (∀ a, RBT.plookup RBT.icmp t v = some a → (a, v) ∈ t.inorder) ∧
    (RBT.plookup RBT.icmp t v = none → v ∉ t.keys) := by
  refine ⟨?_, fun a ha => plookup_mem ha, fun h => plookup_none_not_mem hsorted h⟩
  rw [RBT.rbt_lookup, hwf.1]
  exact lookup_node_plookup hwf.2.1 hfuel


/-- Witness for claim C2: looking up key 2 in the three-node tree c3state
finds the comparator-equal node on the search path. -/
theorem claim_C2_witness :
    (RBT.Wf RBT.c3state RBT.c3tree ∧ RBT.c3tree.addrs.length < 8 ∧
      RBT.c3tree.keys.Pairwise (· ≤ ·)) ∧
    (RBT.rbt_lookup RBT.icmp 8 RBT.c3state 2 = some (RBT.plookup RBT.icmp RBT.c3tree 2) ∧
      (∀ a, RBT.plookup RBT.icmp RBT.c3tree 2 = some a → (a, 2) ∈ RBT.c3tree.inorder) ∧
      (RBT.plookup RBT.icmp RBT.c3tree 2 = none → (2 : Int) ∉ RBT.c3tree.keys)) := by
  have hwf : RBT.Wf RBT.c3state RBT.c3tree := ⟨rfl, by decide, by decide⟩
  exact ⟨⟨hwf, by decide, by decide⟩, claim_C2_lookup_comparator_equal hwf (by decide) (by decide)⟩

/-- Witness for claim C9: inserting 5 into the empty tree allocates the node
at the fresh address 0 and stores contents 5 there. -/
theorem claim_C9_witness :
    (RBT.rbt_insert RBT.icmp 8 RBT.rbt_new 5).map Prod.snd = some 0 ∧
    ((RBT.rbt_insert RBT.icmp 8 RBT.rbt_new 5).bind
      fun pr => (pr.1.heap 0).map fun o => o.node.contents) = some 5 := by
  have hsome : (RBT.rbt_insert RBT.icmp 8 RBT.rbt_new 5).isSome = true := by decide
  cases hx : RBT.rbt_insert RBT.icmp 8 RBT.rbt_new 5 with
  | none => rw [hx] at hsome; cases hsome
  | some pr =>
    obtain ⟨hna, ⟨o', ho', hc⟩, -, -⟩ :=
      claim_C9_duplicate_inserts RBT.icmp 8 RBT.rbt_new pr.1 5 pr.2 (by rw [hx]) rfl
    have hna0 : pr.2 = 0 := hna
    constructor
    · rw [Option.map_some', hna0]
    · show (pr.1.heap 0).map (fun o => o.node.contents) = some 5
      rw [hna0] at ho'
      rw [ho', Option.map_some', hc]
